import Mathlib

/-!
# ZTools sync subsystem: formal model and verification

A shallow embedding of the WebDAV sync subsystem of the ZTools repository:
the `WebDAVSyncClient` (src/unnamed/part_002), the sync types
(src/main/core/sync/types.ts), and spec-modelled pieces for the parts of the
repository whose implementation files were not provided (the Sync Engine and
the revision generator, known only through types, tests and the spec).

JS strings are modelled as `List Char`; machine integers as `Nat`/`Int`;
the remote WebDAV server as an explicit state record; fallible operations
return `Except`.
-/

namespace ZTools

/-- `Char.ofNat` on a valid scalar value round-trips through `toNat`. -/
theorem toNat_ofNat_of_valid {n : Nat} (h : n.isValidChar) : (Char.ofNat n).toNat = n := by
  simp only [Char.ofNat, dif_pos h, Char.ofNatAux, Char.toNat, UInt32.toNat]
  simp [BitVec.toNat_ofNatLt]

theorem toNat_ofNat_small {n : Nat} (h : n < 0xd800) : (Char.ofNat n).toNat = n :=
  toNat_ofNat_of_valid (Or.inl h)

theorem toNat_zero_ch : '0'.toNat = 48 := rfl

/-- Decimal digit test, as in JS `/[0-9]/`. -/
def isDigitCh (c : Char) : Bool := '0' ≤ c && c ≤ '9'

/-- Lowercase hex digit for `n < 16` (used by the modelled random suffix and
by `JSON.stringify` control-character escapes). -/
def hexLower (n : Nat) : Char :=
  if n < 10 then Char.ofNat ('0'.toNat + n) else Char.ofNat ('a'.toNat + (n - 10))

/-- Uppercase hex digit for `n < 16` (used by `encodeURIComponent`). -/
def hexUpper (n : Nat) : Char :=
  if n < 10 then Char.ofNat ('0'.toNat + n) else Char.ofNat ('A'.toNat + (n - 10))

/-- Numeric value of a hex digit, case-insensitive (as accepted by
`decodeURIComponent` and by `JSON.parse` unicode escapes). -/
def hexVal (c : Char) : Option Nat :=
  let n := c.toNat
  if 48 ≤ n ∧ n ≤ 57 then some (n - 48)
  else if 97 ≤ n ∧ n ≤ 102 then some (n - 97 + 10)
  else if 65 ≤ n ∧ n ≤ 70 then some (n - 65 + 10)
  else none

/-- Decimal representation of a natural number, most significant digit first. -/
def natToDecimal (n : Nat) : List Char :=
  if n < 10 then [Char.ofNat ('0'.toNat + n)]
  else natToDecimal (n / 10) ++ [Char.ofNat ('0'.toNat + n % 10)]
decreasing_by exact Nat.div_lt_self (by omega) (by omega)

/-- Decimal representation of an integer (JS `String(n)` for integral `n`). -/
def intToDecimal (n : Int) : List Char :=
  if n < 0 then '-' :: natToDecimal n.natAbs else natToDecimal n.natAbs

/-- Value of a list of decimal digit characters, most significant first. -/
def digitsToNat (ds : List Char) : Nat :=
  ds.foldl (fun a c => a * 10 + (c.toNat - '0'.toNat)) 0

theorem natToDecimal_ne_nil (n : Nat) : natToDecimal n ≠ [] := by
  unfold natToDecimal
  split <;> simp

theorem digitsToNat_append (xs ys : List Char) :
    digitsToNat (xs ++ ys) =
      ys.foldl (fun a c => a * 10 + (c.toNat - '0'.toNat)) (digitsToNat xs) := by
  simp [digitsToNat, List.foldl_append]

theorem digitsToNat_natToDecimal (n : Nat) : digitsToNat (natToDecimal n) = n := by
  induction n using Nat.strong_induction_on with
  | _ n ih =>
    unfold natToDecimal
    split
    · rename_i h
      simp only [digitsToNat, List.foldl_cons, List.foldl_nil, toNat_zero_ch]
      rw [toNat_ofNat_small (by omega)]
      omega
    · rename_i h
      rw [digitsToNat_append]
      rw [ih (n / 10) (Nat.div_lt_self (by omega) (by omega))]
      simp only [List.foldl_cons, List.foldl_nil, toNat_zero_ch]
      rw [toNat_ofNat_small (by omega)]
      omega

/-! ## `encodeURIComponent` / `decodeURIComponent`

The JS builtins used by `WebDAVSyncClient` to derive remote paths from
document ids (src/unnamed/part_002, lines 70-72, 93-95, 128-130, ...).
`encodeURIComponent` leaves the unreserved characters `A-Z a-z 0-9 - _ . !
~ * ' ( )` untouched and percent-encodes the UTF-8 bytes of every other
character, in uppercase hex.  `decodeURIComponent` inverts this, rejecting
malformed percent sequences and invalid UTF-8 (JS throws `URIError`; the
model returns `none`). -/

def isAsciiLetter (c : Char) : Bool :=
  ('A' ≤ c && c ≤ 'Z') || ('a' ≤ c && c ≤ 'z')

/-- The non-alphanumeric characters `encodeURIComponent` leaves unescaped. -/
def uriMarks : List Char :=
  ['-', '_', '.', '!', '~', '*', Char.ofNat 39, '(', ')']

def uriUnreserved (c : Char) : Bool :=
  isAsciiLetter c || isDigitCh c || uriMarks.contains c

/-- UTF-8 encoding of a unicode scalar value, as a list of byte values. -/
def utf8Bytes (c : Char) : List Nat :=
  let n := c.toNat
  if n < 0x80 then [n]
  else if n < 0x800 then [0xC0 + n / 64, 0x80 + n % 64]
  else if n < 0x10000 then
    [0xE0 + n / 4096, 0x80 + (n / 64) % 64, 0x80 + n % 64]
  else
    [0xF0 + n / 262144, 0x80 + (n / 4096) % 64, 0x80 + (n / 64) % 64, 0x80 + n % 64]

/-- `%XX` escape of one byte, uppercase hex as produced by `encodeURIComponent`. -/
def pctByte (b : Nat) : List Char :=
  ['%', hexUpper (b / 16), hexUpper (b % 16)]

/-- Encoding of a single character: kept if unreserved, else its UTF-8 bytes
percent-escaped. -/
def encChar (c : Char) : List Char :=
  if uriUnreserved c then [c] else (utf8Bytes c).foldr (fun b acc => pctByte b ++ acc) []

def encodeURIComponent : List Char → List Char
  | [] => []
  | c :: cs => encChar c ++ encodeURIComponent cs

/-- Read one `%XX` escape from the front of the input. -/
def readPctByte : List Char → Option (Nat × List Char)
  | '%' :: h1 :: h2 :: rest =>
    match hexVal h1, hexVal h2 with
    | some a, some b => some (a * 16 + b, rest)
    | _, _ => none
  | _ => none

/-- UTF-8 continuation byte test. -/
def isCont (b : Nat) : Bool := 0x80 ≤ b && b < 0xC0

/-- Fuel-driven decoder; the fuel only needs to exceed the number of decoded
characters, so `length input + 1` always suffices. -/
def decodeURIAux : Nat → List Char → Option (List Char)
  | 0, _ => none
  | _ + 1, [] => some []
  | fu + 1, c :: cs =>
    if c = '%' then
      match readPctByte (c :: cs) with
      | none => none
      | some (b0, r0) =>
        if b0 < 0x80 then
          (decodeURIAux fu r0).map (Char.ofNat b0 :: ·)
        else if b0 < 0xC2 then none
        else if b0 < 0xE0 then
          match readPctByte r0 with
          | none => none
          | some (b1, r1) =>
            if isCont b1 then
              (decodeURIAux fu r1).map (Char.ofNat ((b0 - 0xC0) * 64 + (b1 - 0x80)) :: ·)
            else none
        else if b0 < 0xF0 then
          match readPctByte r0 with
          | none => none
          | some (b1, r1) =>
            match readPctByte r1 with
            | none => none
            | some (b2, r2) =>
              let n := (b0 - 0xE0) * 4096 + (b1 - 0x80) * 64 + (b2 - 0x80)
              if isCont b1 && isCont b2 && decide (0x800 ≤ n) &&
                  !(decide (0xD800 ≤ n) && decide (n < 0xE000)) then
                (decodeURIAux fu r2).map (Char.ofNat n :: ·)
              else none
        else if b0 < 0xF5 then
          match readPctByte r0 with
          | none => none
          | some (b1, r1) =>
            match readPctByte r1 with
            | none => none
            | some (b2, r2) =>
              match readPctByte r2 with
              | none => none
              | some (b3, r3) =>
                let n := (b0 - 0xF0) * 262144 + (b1 - 0x80) * 4096 +
                  (b2 - 0x80) * 64 + (b3 - 0x80)
                if isCont b1 && isCont b2 && isCont b3 && decide (0x10000 ≤ n) &&
                    decide (n < 0x110000) then
                  (decodeURIAux fu r3).map (Char.ofNat n :: ·)
                else none
        else none
    else
      (decodeURIAux fu cs).map (c :: ·)

def decodeURIComponent (s : List Char) : Option (List Char) :=
  decodeURIAux (s.length + 1) s

/-- A `Char` scalar value, seen as a `Nat`, is below `0xD800` or in
`(0xDFFF, 0x110000)`. -/
theorem char_valid_nat (c : Char) :
    c.toNat < 0xD800 ∨ (0xDFFF < c.toNat ∧ c.toNat < 0x110000) := by
  rcases c.valid with h | ⟨h1, h2⟩
  · exact Or.inl h
  · exact Or.inr ⟨h1, h2⟩

theorem hexVal_hexUpper {k : Nat} (h : k < 16) : hexVal (hexUpper k) = some k := by
  interval_cases k <;> decide

theorem hexVal_hexLower {k : Nat} (h : k < 16) : hexVal (hexLower k) = some k := by
  interval_cases k <;> decide

theorem readPctByte_cons {b : Nat} (h : b < 256) (t : List Char) :
    readPctByte ('%' :: hexUpper (b / 16) :: hexUpper (b % 16) :: t) = some (b, t) := by
  simp only [readPctByte]
  rw [hexVal_hexUpper (by omega), hexVal_hexUpper (by omega)]
  have hb : b / 16 * 16 + b % 16 = b := by omega
  simp [hb]

/-- Decoding steps over the encoding of one character. -/
theorem decodeURIAux_encChar (fu : Nat) (c : Char) (t : List Char) :
    decodeURIAux (fu + 1) (encChar c ++ t) = (decodeURIAux fu t).map (c :: ·) := by
  by_cases hu : uriUnreserved c = true
  · have hc : ¬(c = '%') := by
      intro h
      subst h
      simp [uriUnreserved, isAsciiLetter, isDigitCh, uriMarks] at hu
    simp [encChar, hu, decodeURIAux, hc]
  · have hv := char_valid_nat c
    rcases Nat.lt_or_ge c.toNat 0x80 with h1 | h1
    · have hb : encChar c ++ t =
          '%' :: hexUpper (c.toNat / 16) :: hexUpper (c.toNat % 16) :: t := by
        simp [encChar, hu, utf8Bytes, if_pos h1, pctByte]
      rw [hb]
      simp only [decodeURIAux]
      rw [readPctByte_cons (by omega) t]
      simp only [if_pos rfl, if_pos h1, Char.ofNat_toNat]
      simp
    · rcases Nat.lt_or_ge c.toNat 0x800 with h2 | h2
      · have hb : encChar c ++ t =
            '%' :: hexUpper ((0xC0 + c.toNat / 64) / 16) ::
              hexUpper ((0xC0 + c.toNat / 64) % 16) ::
            '%' :: hexUpper ((0x80 + c.toNat % 64) / 16) ::
              hexUpper ((0x80 + c.toNat % 64) % 16) :: t := by
          simp [encChar, hu, utf8Bytes, if_neg (by omega : ¬c.toNat < 0x80),
            if_pos h2, pctByte]
        rw [hb]
        simp only [decodeURIAux]
        rw [readPctByte_cons (by omega)]
        simp only [if_pos rfl]
        rw [if_neg (by omega : ¬0xC0 + c.toNat / 64 < 0x80),
          if_neg (by omega : ¬0xC0 + c.toNat / 64 < 0xC2),
          if_pos (by omega : 0xC0 + c.toNat / 64 < 0xE0)]
        rw [readPctByte_cons (by omega)]
        have hcont : isCont (0x80 + c.toNat % 64) = true := by
          simp only [isCont, Bool.and_eq_true, decide_eq_true_eq]
          omega
        simp only [hcont, if_pos rfl]
        have harg : (0xC0 + c.toNat / 64 - 0xC0) * 64 + (0x80 + c.toNat % 64 - 0x80)
            = c.toNat := by omega
        rw [harg, Char.ofNat_toNat]
        simp
      · rcases Nat.lt_or_ge c.toNat 0x10000 with h3 | h3
        · have hb : encChar c ++ t =
              '%' :: hexUpper ((0xE0 + c.toNat / 4096) / 16) ::
                hexUpper ((0xE0 + c.toNat / 4096) % 16) ::
              '%' :: hexUpper ((0x80 + c.toNat / 64 % 64) / 16) ::
                hexUpper ((0x80 + c.toNat / 64 % 64) % 16) ::
              '%' :: hexUpper ((0x80 + c.toNat % 64) / 16) ::
                hexUpper ((0x80 + c.toNat % 64) % 16) :: t := by
            simp [encChar, hu, utf8Bytes, if_neg (by omega : ¬c.toNat < 0x80),
              if_neg (by omega : ¬c.toNat < 0x800), if_pos h3, pctByte]
          rw [hb]
          simp only [decodeURIAux]
          rw [readPctByte_cons (by omega)]
          simp only [if_pos rfl]
          rw [if_neg (by omega : ¬0xE0 + c.toNat / 4096 < 0x80),
            if_neg (by omega : ¬0xE0 + c.toNat / 4096 < 0xC2),
            if_neg (by omega : ¬0xE0 + c.toNat / 4096 < 0xE0),
            if_pos (by omega : 0xE0 + c.toNat / 4096 < 0xF0)]
          rw [readPctByte_cons (by omega)]
          simp only [if_true]
          rw [readPctByte_cons (by omega)]
          have harg : (0xE0 + c.toNat / 4096 - 0xE0) * 4096 +
              (0x80 + c.toNat / 64 % 64 - 0x80) * 64 + (0x80 + c.toNat % 64 - 0x80)
              = c.toNat := by omega
          have hcond : (isCont (0x80 + c.toNat / 64 % 64) &&
              isCont (0x80 + c.toNat % 64) &&
              decide (0x800 ≤ (0xE0 + c.toNat / 4096 - 0xE0) * 4096 +
                (0x80 + c.toNat / 64 % 64 - 0x80) * 64 + (0x80 + c.toNat % 64 - 0x80)) &&
              !(decide (0xD800 ≤ (0xE0 + c.toNat / 4096 - 0xE0) * 4096 +
                  (0x80 + c.toNat / 64 % 64 - 0x80) * 64 + (0x80 + c.toNat % 64 - 0x80)) &&
                decide ((0xE0 + c.toNat / 4096 - 0xE0) * 4096 +
                  (0x80 + c.toNat / 64 % 64 - 0x80) * 64 + (0x80 + c.toNat % 64 - 0x80)
                  < 0xE000))) = true := by
            rw [harg]
            simp only [isCont, Bool.and_eq_true, Bool.not_eq_true', Bool.and_eq_false_iff,
              decide_eq_true_eq, decide_eq_false_iff_not]
            omega
          simp only [hcond, if_pos rfl]
          rw [harg, Char.ofNat_toNat]
          simp
        · have hb : encChar c ++ t =
              '%' :: hexUpper ((0xF0 + c.toNat / 262144) / 16) ::
                hexUpper ((0xF0 + c.toNat / 262144) % 16) ::
              '%' :: hexUpper ((0x80 + c.toNat / 4096 % 64) / 16) ::
                hexUpper ((0x80 + c.toNat / 4096 % 64) % 16) ::
              '%' :: hexUpper ((0x80 + c.toNat / 64 % 64) / 16) ::
                hexUpper ((0x80 + c.toNat / 64 % 64) % 16) ::
              '%' :: hexUpper ((0x80 + c.toNat % 64) / 16) ::
                hexUpper ((0x80 + c.toNat % 64) % 16) :: t := by
            simp [encChar, hu, utf8Bytes, if_neg (by omega : ¬c.toNat < 0x80),
              if_neg (by omega : ¬c.toNat < 0x800),
              if_neg (by omega : ¬c.toNat < 0x10000), pctByte]
          have hup : c.toNat < 0x110000 := by omega
          rw [hb]
          simp only [decodeURIAux]
          rw [readPctByte_cons (by omega)]
          simp only [if_pos rfl]
          rw [if_neg (by omega : ¬0xF0 + c.toNat / 262144 < 0x80),
            if_neg (by omega : ¬0xF0 + c.toNat / 262144 < 0xC2),
            if_neg (by omega : ¬0xF0 + c.toNat / 262144 < 0xE0),
            if_neg (by omega : ¬0xF0 + c.toNat / 262144 < 0xF0),
            if_pos (by omega : 0xF0 + c.toNat / 262144 < 0xF5)]
          rw [readPctByte_cons (by omega)]
          simp only [if_true]
          rw [readPctByte_cons (by omega)]
          simp only [if_true]
          rw [readPctByte_cons (by omega)]
          have harg : (0xF0 + c.toNat / 262144 - 0xF0) * 262144 +
              (0x80 + c.toNat / 4096 % 64 - 0x80) * 4096 +
              (0x80 + c.toNat / 64 % 64 - 0x80) * 64 + (0x80 + c.toNat % 64 - 0x80)
              = c.toNat := by omega
          have hcond : (isCont (0x80 + c.toNat / 4096 % 64) &&
              isCont (0x80 + c.toNat / 64 % 64) &&
              isCont (0x80 + c.toNat % 64) &&
              decide (0x10000 ≤ (0xF0 + c.toNat / 262144 - 0xF0) * 262144 +
                (0x80 + c.toNat / 4096 % 64 - 0x80) * 4096 +
                (0x80 + c.toNat / 64 % 64 - 0x80) * 64 + (0x80 + c.toNat % 64 - 0x80)) &&
              decide ((0xF0 + c.toNat / 262144 - 0xF0) * 262144 +
                (0x80 + c.toNat / 4096 % 64 - 0x80) * 4096 +
                (0x80 + c.toNat / 64 % 64 - 0x80) * 64 + (0x80 + c.toNat % 64 - 0x80)
                < 0x110000)) = true := by
            rw [harg]
            simp only [isCont, Bool.and_eq_true, decide_eq_true_eq]
            omega
          simp only [hcond, if_pos rfl]
          rw [harg, Char.ofNat_toNat]
          simp

theorem length_encChar_pos (c : Char) : 0 < (encChar c).length := by
  by_cases hu : uriUnreserved c = true
  · simp [encChar, hu]
  · simp only [encChar, hu, if_false, Bool.false_eq_true]
    simp only [utf8Bytes]
    split
    · simp [pctByte]
    · split
      · simp [pctByte]
      · split <;> simp [pctByte]

theorem length_le_length_encode (s : List Char) :
    s.length ≤ (encodeURIComponent s).length := by
  induction s with
  | nil => simp [encodeURIComponent]
  | cons c cs ih =>
    have := length_encChar_pos c
    simp only [encodeURIComponent, List.length_append, List.length_cons]
    omega

theorem decodeURIAux_encode (fu : Nat) (s : List Char) (h : s.length < fu) :
    decodeURIAux fu (encodeURIComponent s) = some s := by
  induction s generalizing fu with
  | nil =>
    match fu, h with
    | fu + 1, _ => simp [encodeURIComponent, decodeURIAux]
  | cons c cs ih =>
    match fu, h with
    | fu + 1, h =>
      simp only [encodeURIComponent]
      rw [decodeURIAux_encChar]
      rw [ih fu (by simpa using Nat.lt_of_succ_lt_succ h)]
      rfl

/-- `decodeURIComponent` is a left inverse of `encodeURIComponent`:
the JS pair used by the client round-trips every document id. -/
theorem decode_encode (s : List Char) :
    decodeURIComponent (encodeURIComponent s) = some s := by
  unfold decodeURIComponent
  exact decodeURIAux_encode _ _ (by have := length_le_length_encode s; omega)

/-- `encodeURIComponent` is injective: distinct ids give distinct encodings. -/
theorem encodeURIComponent_injective {a b : List Char}
    (h : encodeURIComponent a = encodeURIComponent b) : a = b := by
  have ha := decode_encode a
  have hb := decode_encode b
  rw [h, hb] at ha
  exact ((Option.some.injEq _ _).mp ha).symm

theorem hexUpper_ne_slash {k : Nat} (h : k < 16) : hexUpper k ≠ '/' := by
  interval_cases k <;> decide

theorem utf8Bytes_lt_256 (c : Char) : ∀ b ∈ utf8Bytes c, b < 256 := by
  intro b hb
  have hv := char_valid_nat c
  simp only [utf8Bytes] at hb
  split at hb <;> try (simp at hb; omega)
  split at hb <;> try (simp at hb; omega)
  split at hb <;> (simp at hb; omega)

/-- No character of an encoded id is a path separator. -/
theorem encodeURIComponent_no_slash (s : List Char) :
    ∀ c ∈ encodeURIComponent s, c ≠ '/' := by
  induction s with
  | nil => simp [encodeURIComponent]
  | cons c cs ih =>
    intro x hx
    simp only [encodeURIComponent, List.mem_append] at hx
    rcases hx with hx | hx
    · by_cases hu : uriUnreserved c = true
      · simp only [encChar, hu, if_true, List.mem_singleton] at hx
        subst hx
        intro hc
        subst hc
        simp [uriUnreserved, isAsciiLetter, isDigitCh, uriMarks] at hu
      · simp only [encChar, hu, if_false, Bool.false_eq_true] at hx
        have hlt := utf8Bytes_lt_256 c
        revert hx
        generalize utf8Bytes c = bs at hlt
        induction bs with
        | nil => simp
        | cons b bs ihb =>
          intro hx
          simp only [List.foldr_cons] at hx
          rcases List.mem_append.mp hx with hx | hx
          · simp only [pctByte, List.mem_cons, List.mem_singleton] at hx
            have hb : b < 256 := hlt b (by simp)
            rcases hx with rfl | rfl | hx
            · decide
            · exact hexUpper_ne_slash (by omega)
            · rcases hx with rfl | hx
              · exact hexUpper_ne_slash (by omega)
              · simp at hx
          · exact ihb (fun y hy => hlt y (by simp [hy])) hx
    · exact ih x hx

/-! ## JSON

Model of the JS `JSON.stringify(doc, null, 2)` / `JSON.parse` pair used by
`WebDAVSyncClient` (src/unnamed/part_002, lines 73, 102, 172, 208).  `JVal`
is the value domain; one modelling restriction: JSON numbers are integers
(the documents the client stores never rely on fractional values, and JS
serializes integral doubles in plain decimal).  Strings escape `"`, the
backslash and control characters exactly as `JSON.stringify` does; the
parser accepts the standard escapes including `\uXXXX` (lone surrogates,
unrepresentable in `Char`, are rejected).  -/

inductive JVal where
  | null
  | bool (b : Bool)
  | num (n : Int)
  | str (s : List Char)
  | arr (elems : List JVal)
  | obj (fields : List (List Char × JVal))

mutual

def beqJVal : JVal → JVal → Bool
  | .null, .null => true
  | .bool a, .bool b => a == b
  | .num a, .num b => a == b
  | .str a, .str b => a == b
  | .arr a, .arr b => beqJList a b
  | .obj a, .obj b => beqJFields a b
  | _, _ => false

def beqJList : List JVal → List JVal → Bool
  | [], [] => true
  | x :: xs, y :: ys => beqJVal x y && beqJList xs ys
  | _, _ => false

def beqJFields : List (List Char × JVal) → List (List Char × JVal) → Bool
  | [], [] => true
  | (k1, v1) :: xs, (k2, v2) :: ys => k1 == k2 && beqJVal v1 v2 && beqJFields xs ys
  | _, _ => false

end

theorem beqJVal_iff_all : ∀ fuel : Nat,
    (∀ a b : JVal, sizeOf a < fuel → (beqJVal a b = true ↔ a = b)) ∧
    (∀ xs ys : List JVal, sizeOf xs < fuel → (beqJList xs ys = true ↔ xs = ys)) ∧
    (∀ fs gs : List (List Char × JVal), sizeOf fs < fuel →
      (beqJFields fs gs = true ↔ fs = gs)) := by
  intro fuel
  induction fuel with
  | zero => refine ⟨?_, ?_, ?_⟩ <;> (intro a b h; omega)
  | succ k ih =>
    obtain ⟨ihV, ihL, ihF⟩ := ih
    refine ⟨?_, ?_, ?_⟩
    · intro a b h
      cases a <;> cases b <;> simp [beqJVal]
      · rename_i x y
        have hs : sizeOf (JVal.arr x) = 1 + sizeOf x := by simp
        exact ihL x y (by omega)
      · rename_i x y
        have hs : sizeOf (JVal.obj x) = 1 + sizeOf x := by simp
        exact ihF x y (by omega)
    · intro xs ys h
      cases xs <;> cases ys <;> simp [beqJList]
      rename_i x xs y ys
      have hs : sizeOf (x :: xs) = 1 + sizeOf x + sizeOf xs := by simp
      rw [ihV x y (by omega), ihL xs ys (by omega)]
    · intro fs gs h
      cases fs <;> cases gs <;> simp [beqJFields]
      rename_i kv fs kv2 gs
      obtain ⟨k1, v1⟩ := kv
      obtain ⟨k2, v2⟩ := kv2
      have hs : sizeOf ((k1, v1) :: fs) = 1 + (1 + sizeOf k1 + sizeOf v1) + sizeOf fs := by
        simp
      simp [beqJFields, ihV v1 v2 (by omega), ihF fs gs (by omega)]

instance : DecidableEq JVal := fun a b =>
  decidable_of_iff (beqJVal a b = true) ((beqJVal_iff_all (sizeOf a + 1)).1 a b (by omega))

def lbraceCh : Char := Char.ofNat 123

def rbraceCh : Char := Char.ofNat 125

/-- `JSON.stringify`'s escaping of one string character. -/
def escChar (c : Char) : List Char :=
  if c = '"' then ['\\', '"']
  else if c = '\\' then ['\\', '\\']
  else if c.toNat = 8 then ['\\', 'b']
  else if c.toNat = 9 then ['\\', 't']
  else if c.toNat = 10 then ['\\', 'n']
  else if c.toNat = 12 then ['\\', 'f']
  else if c.toNat = 13 then ['\\', 'r']
  else if c.toNat < 32 then
    ['\\', 'u', '0', '0', hexLower (c.toNat / 16), hexLower (c.toNat % 16)]
  else [c]

def escBody (s : List Char) : List Char :=
  s.foldr (fun c acc => escChar c ++ acc) []

/-- Serialized JSON string literal. -/
def printStr (s : List Char) : List Char :=
  '"' :: (escBody s ++ ['"'])

/-- Newline plus `k` spaces: the whitespace `JSON.stringify(v, null, 2)`
inserts before an element printed at indentation `k`. -/
def indentNl (k : Nat) : List Char := '\n' :: List.replicate k ' '

mutual

/-- `JSON.stringify(v, null, 2)` at current indentation `ind`. -/
def printVal : Nat → JVal → List Char
  | _, .null => 'n' :: 'u' :: 'l' :: 'l' :: []
  | _, .bool true => 't' :: 'r' :: 'u' :: 'e' :: []
  | _, .bool false => 'f' :: 'a' :: 'l' :: 's' :: 'e' :: []
  | _, .num n => intToDecimal n
  | _, .str s => printStr s
  | _, .arr [] => '[' :: ']' :: []
  | ind, .arr (x :: xs) =>
    '[' :: (indentNl (ind + 2) ++ printVal (ind + 2) x ++ printArrTail (ind + 2) xs ++
      indentNl ind ++ [']'])
  | _, .obj [] => lbraceCh :: rbraceCh :: []
  | ind, .obj (kv :: kvs) =>
    lbraceCh :: (indentNl (ind + 2) ++ printMember (ind + 2) kv ++
      printObjTail (ind + 2) kvs ++ indentNl ind ++ [rbraceCh])

def printMember : Nat → List Char × JVal → List Char
  | ind, (k, v) => printStr k ++ ':' :: ' ' :: printVal ind v

def printArrTail : Nat → List JVal → List Char
  | _, [] => []
  | ind, x :: xs => ',' :: (indentNl ind ++ printVal ind x ++ printArrTail ind xs)

def printObjTail : Nat → List (List Char × JVal) → List Char
  | _, [] => []
  | ind, kv :: kvs => ',' :: (indentNl ind ++ printMember ind kv ++ printObjTail ind kvs)

end

/-- `JSON.stringify(v, null, 2)`, as called by `uploadDoc`/`uploadAttachment`. -/
def stringify2 (v : JVal) : List Char := printVal 0 v

/-- JSON insignificant whitespace. -/
def isWsCh (c : Char) : Bool := c = ' ' || c = '\n' || c = '\t' || c = '\r'

def skipWs : List Char → List Char
  | [] => []
  | c :: cs => if isWsCh c then skipWs cs else c :: cs

def headIs (l : List Char) (c : Char) : Bool :=
  match l with
  | x :: _ => x = c
  | [] => false

/-- Body of a JSON string literal (after the opening quote), returning the
decoded string and the input after the closing quote. -/
def parseStrBody : List Char → Option (List Char × List Char)
  | [] => none
  | c :: rest =>
    if c = '"' then some ([], rest)
    else if c = '\\' then
      match rest with
      | [] => none
      | e :: rest2 =>
        if e = '"' then (parseStrBody rest2).map (fun p => ('"' :: p.1, p.2))
        else if e = '\\' then (parseStrBody rest2).map (fun p => ('\\' :: p.1, p.2))
        else if e = '/' then (parseStrBody rest2).map (fun p => ('/' :: p.1, p.2))
        else if e = 'b' then (parseStrBody rest2).map (fun p => (Char.ofNat 8 :: p.1, p.2))
        else if e = 'f' then (parseStrBody rest2).map (fun p => (Char.ofNat 12 :: p.1, p.2))
        else if e = 'n' then (parseStrBody rest2).map (fun p => ('\n' :: p.1, p.2))
        else if e = 'r' then (parseStrBody rest2).map (fun p => (Char.ofNat 13 :: p.1, p.2))
        else if e = 't' then (parseStrBody rest2).map (fun p => ('\t' :: p.1, p.2))
        else if e = 'u' then
          match rest2 with
          | h1 :: h2 :: h3 :: h4 :: rest3 =>
            match hexVal h1, hexVal h2, hexVal h3, hexVal h4 with
            | some a, some b, some c2, some d =>
              let n := a * 4096 + b * 256 + c2 * 16 + d
              if 0xD800 ≤ n ∧ n < 0xE000 then none
              else (parseStrBody rest3).map (fun p => (Char.ofNat n :: p.1, p.2))
            | _, _, _, _ => none
          | _ => none
        else none
    else if c.toNat < 32 then none
    else (parseStrBody rest).map (fun p => (c :: p.1, p.2))

/-- Maximal run of decimal digits, as a number. -/
def parseNat (l : List Char) : Option (Nat × List Char) :=
  let ds := l.takeWhile isDigitCh
  if ds.isEmpty then none else some (digitsToNat ds, l.drop ds.length)

def parseNum (l : List Char) : Option (Int × List Char) :=
  match l with
  | '-' :: rest => (parseNat rest).map (fun p => (-(p.1 : Int), p.2))
  | _ => (parseNat l).map (fun p => ((p.1 : Int), p.2))

mutual

/-- Fuel-driven JSON value parser; fuel exceeding the input length always
suffices.  Whitespace-tolerant before every token, as `JSON.parse` is. -/
def parseVal : Nat → List Char → Option (JVal × List Char)
  | 0, _ => none
  | fu + 1, input =>
    match skipWs input with
    | [] => none
    | c :: rest =>
      if c = 'n' then
        match rest with
        | 'u' :: 'l' :: 'l' :: r => some (.null, r)
        | _ => none
      else if c = 't' then
        match rest with
        | 'r' :: 'u' :: 'e' :: r => some (.bool true, r)
        | _ => none
      else if c = 'f' then
        match rest with
        | 'a' :: 'l' :: 's' :: 'e' :: r => some (.bool false, r)
        | _ => none
      else if c = '"' then
        (parseStrBody rest).map (fun p => (.str p.1, p.2))
      else if c = '[' then
        let r2 := skipWs rest
        if headIs r2 ']' then some (.arr [], r2.tail)
        else
          match parseVal fu r2 with
          | none => none
          | some (x, r3) =>
            match parseArrTail fu r3 with
            | none => none
            | some (xs, r4) => some (.arr (x :: xs), r4)
      else if c = lbraceCh then
        let r2 := skipWs rest
        if headIs r2 rbraceCh then some (.obj [], r2.tail)
        else
          match parseMember fu r2 with
          | none => none
          | some (kv, r3) =>
            match parseObjTail fu r3 with
            | none => none
            | some (kvs, r4) => some (.obj (kv :: kvs), r4)
      else if c = '-' || isDigitCh c then
        (parseNum (c :: rest)).map (fun p => (.num p.1, p.2))
      else none

/-- One `"key": value` object member. -/
def parseMember : Nat → List Char → Option ((List Char × JVal) × List Char)
  | 0, _ => none
  | fu + 1, input =>
    let r := skipWs input
    if headIs r '"' then
      match parseStrBody r.tail with
      | none => none
      | some (k, r1) =>
        let r2 := skipWs r1
        if headIs r2 ':' then
          match parseVal fu r2.tail with
          | none => none
          | some (v, r3) => some ((k, v), r3)
        else none
    else none

/-- After one array element: either `]` or `, element ...`. -/
def parseArrTail : Nat → List Char → Option (List JVal × List Char)
  | 0, _ => none
  | fu + 1, input =>
    let r := skipWs input
    if headIs r ']' then some ([], r.tail)
    else if headIs r ',' then
      match parseVal fu r.tail with
      | none => none
      | some (x, r1) =>
        match parseArrTail fu r1 with
        | none => none
        | some (xs, r2) => some (x :: xs, r2)
    else none

/-- After one object member: either the closing brace or `, member ...`. -/
def parseObjTail : Nat → List Char → Option (List (List Char × JVal) × List Char)
  | 0, _ => none
  | fu + 1, input =>
    let r := skipWs input
    if headIs r rbraceCh then some ([], r.tail)
    else if headIs r ',' then
      match parseMember fu r.tail with
      | none => none
      | some (kv, r1) =>
        match parseObjTail fu r1 with
        | none => none
        | some (kvs, r2) => some (kv :: kvs, r2)
    else none

end

/-- `JSON.parse`: a complete value possibly surrounded by whitespace. -/
def jsonParse (s : List Char) : Option JVal :=
  match parseVal (s.length + 1) s with
  | none => none
  | some (v, rest) => if skipWs rest = [] then some v else none

/-! ### Parser completeness: `jsonParse ∘ stringify2 = some` -/

/-- The next input character (if any) is not a digit, so a preceding number
token cannot absorb it. -/
def numSafe : List Char → Prop
  | [] => True
  | c :: _ => isDigitCh c = false

theorem digitCh_ne {c : Char} (hd : isDigitCh c = true) {x : Char}
    (hx : isDigitCh x = false) : c ≠ x := by
  intro he
  subst he
  rw [hd] at hx
  cases hx

theorem digit_not_ws {c : Char} (hd : isDigitCh c = true) : isWsCh c = false := by
  simp only [isWsCh, Bool.or_eq_false_iff, decide_eq_false_iff_not]
  exact ⟨⟨⟨digitCh_ne hd (by decide), digitCh_ne hd (by decide)⟩,
    digitCh_ne hd (by decide)⟩, digitCh_ne hd (by decide)⟩

theorem natToDecimal_all_digits (n : Nat) :
    ∀ x ∈ natToDecimal n, isDigitCh x = true := by
  induction n using Nat.strong_induction_on with
  | _ n ih =>
    intro x hx
    unfold natToDecimal at hx
    split at hx
    · rename_i h
      simp only [List.mem_singleton] at hx
      subst hx
      interval_cases n <;> decide
    · rename_i h
      rcases List.mem_append.mp hx with hx | hx
      · exact ih (n / 10) (Nat.div_lt_self (by omega) (by omega)) x hx
      · simp only [List.mem_singleton] at hx
        subst hx
        have hm : n % 10 < 10 := Nat.mod_lt _ (by omega)
        generalize n % 10 = m at hm ⊢
        interval_cases m <;> decide

theorem natToDecimal_head (n : Nat) :
    ∃ d t, natToDecimal n = d :: t ∧ isDigitCh d = true := by
  cases hnd : natToDecimal n with
  | nil => exact absurd hnd (natToDecimal_ne_nil n)
  | cons d t =>
    exact ⟨d, t, rfl, natToDecimal_all_digits n d (hnd ▸ List.mem_cons_self d t)⟩

theorem skipWs_cons_of_nonws {c : Char} {l : List Char} (h : isWsCh c = false) :
    skipWs (c :: l) = c :: l := by
  simp [skipWs, h]

theorem skipWs_ws_append {w : List Char} (hw : ∀ c ∈ w, isWsCh c = true)
    (l : List Char) : skipWs (w ++ l) = skipWs l := by
  induction w with
  | nil => simp
  | cons c cs ih =>
    simp only [List.cons_append, skipWs, hw c (by simp), if_true]
    exact ih (fun x hx => hw x (by simp [hx]))

theorem indentNl_ws (k : Nat) : ∀ c ∈ indentNl k, isWsCh c = true := by
  intro c hc
  simp only [indentNl, List.mem_cons] at hc
  rcases hc with rfl | hc
  · decide
  · rw [List.eq_of_mem_replicate hc]
    decide

theorem skipWs_indentNl (k : Nat) (l : List Char) :
    skipWs (indentNl k ++ l) = skipWs l :=
  skipWs_ws_append (indentNl_ws k) l

theorem takeWhile_all_append {p : Char → Bool} {ds rest : List Char}
    (hall : ∀ x ∈ ds, p x = true)
    (hrest : match rest with | [] => True | c :: _ => p c = false) :
    (ds ++ rest).takeWhile p = ds := by
  induction ds with
  | nil =>
    cases rest with
    | nil => rfl
    | cons c cs =>
      simp only at hrest
      simp [List.takeWhile, hrest]
  | cons d ds ih =>
    simp only [List.cons_append, List.takeWhile, hall d (by simp), if_true,
      List.append_eq]
    rw [ih (fun x hx => hall x (by simp [hx]))]

theorem parseNat_decimal (m : Nat) (rest : List Char) (h : numSafe rest) :
    parseNat (natToDecimal m ++ rest) = some (m, rest) := by
  unfold parseNat
  rw [takeWhile_all_append (natToDecimal_all_digits m) (by cases rest <;> exact h)]
  have hne := natToDecimal_ne_nil m
  have hem : (natToDecimal m).isEmpty = false := by
    cases hl : natToDecimal m with
    | nil => exact absurd hl hne
    | cons a b => rfl
  simp only [hem, Bool.false_eq_true, if_false]
  rw [digitsToNat_natToDecimal, List.drop_left]

theorem parseNum_intToDecimal (n : Int) (rest : List Char) (h : numSafe rest) :
    parseNum (intToDecimal n ++ rest) = some (n, rest) := by
  rcases Int.lt_or_le n 0 with hneg | hpos
  · rw [intToDecimal, if_pos hneg]
    simp only [List.cons_append, parseNum]
    rw [parseNat_decimal n.natAbs rest h]
    simp only [Option.map_some']
    have hn : -(n.natAbs : Int) = n := by omega
    rw [hn]
  · obtain ⟨d, t, hd, hdig⟩ := natToDecimal_head n.natAbs
    rw [intToDecimal, if_neg (by omega), hd]
    simp only [List.cons_append]
    unfold parseNum
    split
    · rename_i heq
      rw [List.cons.injEq] at heq
      exact absurd heq.1 (digitCh_ne hdig (by decide))
    · rw [← List.cons_append, ← hd, parseNat_decimal n.natAbs rest h]
      simp only [Option.map_some']
      have hn : (n.natAbs : Int) = n := by omega
      rw [hn]

theorem parseStrBody_escBody (s rest : List Char) :
    parseStrBody (escBody s ++ '"' :: rest) = some (s, rest) := by
  induction s with
  | nil =>
    unfold parseStrBody
    simp [escBody]
  | cons c cs ih =>
    have hbody : escBody (c :: cs) = escChar c ++ escBody cs := by
      simp [escBody]
    rw [hbody, List.append_assoc]
    by_cases hq : c = '"'
    · subst hq
      rw [escChar]
      simp only [if_pos rfl, List.cons_append, List.nil_append]
      unfold parseStrBody
      simp [ih]
    · by_cases hbs : c = '\\'
      · subst hbs
        rw [escChar]
        simp only [if_neg (by decide : ¬('\\' = '"')), if_pos rfl, List.cons_append,
          List.nil_append]
        unfold parseStrBody
        simp [ih]
      · by_cases h8 : c.toNat = 8
        · have hc : Char.ofNat 8 = c := by rw [← h8, Char.ofNat_toNat]
          rw [escChar, if_neg hq, if_neg hbs, if_pos h8]
          simp only [List.cons_append, List.nil_append]
          unfold parseStrBody
          simp [ih]
          exact hc
        · by_cases h9 : c.toNat = 9
          · have hc : '\t' = c := by
              rw [show '\t' = Char.ofNat 9 from by decide, ← h9, Char.ofNat_toNat]
            rw [escChar, if_neg hq, if_neg hbs, if_neg h8, if_pos h9]
            simp only [List.cons_append, List.nil_append]
            unfold parseStrBody
            simp [ih]
            exact hc
          · by_cases h10 : c.toNat = 10
            · have hc : '\n' = c := by
                rw [show '\n' = Char.ofNat 10 from by decide, ← h10, Char.ofNat_toNat]
              rw [escChar, if_neg hq, if_neg hbs, if_neg h8, if_neg h9, if_pos h10]
              simp only [List.cons_append, List.nil_append]
              unfold parseStrBody
              simp [ih]
              exact hc
            · by_cases h12 : c.toNat = 12
              · have hc : Char.ofNat 12 = c := by rw [← h12, Char.ofNat_toNat]
                rw [escChar, if_neg hq, if_neg hbs, if_neg h8, if_neg h9, if_neg h10,
                  if_pos h12]
                simp only [List.cons_append, List.nil_append]
                unfold parseStrBody
                simp [ih]
                exact hc
              · by_cases h13 : c.toNat = 13
                · have hc : Char.ofNat 13 = c := by rw [← h13, Char.ofNat_toNat]
                  rw [escChar, if_neg hq, if_neg hbs, if_neg h8, if_neg h9, if_neg h10,
                    if_neg h12, if_pos h13]
                  simp only [List.cons_append, List.nil_append]
                  unfold parseStrBody
                  simp [ih]
                  exact hc
                · by_cases h32 : c.toNat < 32
                  · rw [escChar, if_neg hq, if_neg hbs, if_neg h8, if_neg h9,
                      if_neg h10, if_neg h12, if_neg h13, if_pos h32]
                    have hv0 : hexVal '0' = some 0 := by decide
                    have hv1 : hexVal (hexLower (c.toNat / 16)) = some (c.toNat / 16) :=
                      hexVal_hexLower (by omega)
                    have hv2 : hexVal (hexLower (c.toNat % 16)) = some (c.toNat % 16) :=
                      hexVal_hexLower (by omega)
                    have hx : c.toNat / 16 * 16 + c.toNat % 16 = c.toNat := by omega
                    simp only [List.cons_append, List.nil_append]
                    unfold parseStrBody
                    simp [hv0, hv1, hv2, hx]
                    exact ⟨by omega, ih⟩
                  · rw [escChar, if_neg hq, if_neg hbs, if_neg h8, if_neg h9,
                      if_neg h10, if_neg h12, if_neg h13, if_neg h32]
                    simp only [List.cons_append, List.nil_append]
                    unfold parseStrBody
                    rw [if_neg hq, if_neg hbs, if_neg h32, ih]
                    rfl

/-- Every printed value starts with a non-whitespace character that is
neither a closing bracket nor a closing brace. -/
theorem printVal_head (ind : Nat) (v : JVal) :
    ∃ c t, printVal ind v = c :: t ∧ isWsCh c = false ∧ (c = ']') = False ∧
      (c = rbraceCh) = False ∧ (c = ',') = False ∧ (c = ':') = False := by
  cases v with
  | null => exact ⟨'n', _, rfl, by decide, by decide, by decide, by decide, by decide⟩
  | bool b =>
    cases b
    · exact ⟨'f', _, rfl, by decide, by decide, by decide, by decide, by decide⟩
    · exact ⟨'t', _, rfl, by decide, by decide, by decide, by decide, by decide⟩
  | num n =>
    show ∃ c t, intToDecimal n = c :: t ∧ _
    rcases Int.lt_or_le n 0 with hneg | hpos
    · refine ⟨'-', natToDecimal n.natAbs, ?_, by decide, by decide, by decide,
        by decide, by decide⟩
      rw [intToDecimal, if_pos hneg]
    · obtain ⟨d, t, hd, hdig⟩ := natToDecimal_head n.natAbs
      refine ⟨d, t, ?_, digit_not_ws hdig, ?_, ?_, ?_, ?_⟩
      · rw [intToDecimal, if_neg (by omega), hd]
      all_goals
        simp only [eq_iff_iff, iff_false]
        exact digitCh_ne hdig (by decide)
  | str s => exact ⟨'"', _, rfl, by decide, by decide, by decide, by decide, by decide⟩
  | arr es =>
    cases es
    · exact ⟨'[', _, rfl, by decide, by decide, by decide, by decide, by decide⟩
    · exact ⟨'[', _, rfl, by decide, by decide, by decide, by decide, by decide⟩
  | obj fs =>
    cases fs
    · exact ⟨lbraceCh, _, rfl, by decide, by decide, by decide, by decide, by decide⟩
    · exact ⟨lbraceCh, _, rfl, by decide, by decide, by decide, by decide, by decide⟩

/-- `parseVal` ignores leading whitespace. -/
theorem parseVal_ws_irrel (fu : Nat) {w : List Char} (hw : ∀ c ∈ w, isWsCh c = true)
    (l : List Char) : parseVal fu (w ++ l) = parseVal fu l := by
  cases fu with
  | zero => rfl
  | succ fu =>
    unfold parseVal
    rw [skipWs_ws_append hw]

/-- `parseMember` ignores leading whitespace. -/
theorem parseMember_ws_irrel (fu : Nat) {w : List Char}
    (hw : ∀ c ∈ w, isWsCh c = true) (l : List Char) :
    parseMember fu (w ++ l) = parseMember fu l := by
  cases fu with
  | zero => rfl
  | succ fu =>
    unfold parseMember
    rw [skipWs_ws_append hw]

theorem numSafe_arrTail (ind jnd : Nat) (xs : List JVal) (l : List Char) :
    numSafe (printArrTail ind xs ++ (indentNl jnd ++ l)) := by
  cases xs with
  | nil =>
    show numSafe ([] ++ (indentNl jnd ++ l))
    simp only [List.nil_append, indentNl, List.cons_append]
    show isDigitCh '\n' = false
    decide
  | cons x xs =>
    show numSafe ((',' :: _) ++ _)
    simp only [List.cons_append]
    show isDigitCh ',' = false
    decide

theorem numSafe_objTail (ind jnd : Nat) (kvs : List (List Char × JVal)) (l : List Char) :
    numSafe (printObjTail ind kvs ++ (indentNl jnd ++ l)) := by
  cases kvs with
  | nil =>
    show numSafe ([] ++ (indentNl jnd ++ l))
    simp only [List.nil_append, indentNl, List.cons_append]
    show isDigitCh '\n' = false
    decide
  | cons kv kvs =>
    show numSafe ((',' :: _) ++ _)
    simp only [List.cons_append]
    show isDigitCh ',' = false
    decide

/-- Completeness of the JSON parser on printer output, all four mutual
parsers at once, by induction on the fuel. -/
theorem parse_print (fu : Nat) :
    (∀ (v : JVal) (ind : Nat) (rest : List Char),
      (printVal ind v).length < fu → numSafe rest →
      parseVal fu (printVal ind v ++ rest) = some (v, rest)) ∧
    (∀ (kv : List Char × JVal) (ind : Nat) (rest : List Char),
      (printMember ind kv).length < fu → numSafe rest →
      parseMember fu (printMember ind kv ++ rest) = some (kv, rest)) ∧
    (∀ (xs : List JVal) (ind jnd : Nat) (rest : List Char),
      (printArrTail ind xs).length < fu →
      parseArrTail fu (printArrTail ind xs ++ (indentNl jnd ++ ']' :: rest)) =
        some (xs, rest)) ∧
    (∀ (kvs : List (List Char × JVal)) (ind jnd : Nat) (rest : List Char),
      (printObjTail ind kvs).length < fu →
      parseObjTail fu (printObjTail ind kvs ++ (indentNl jnd ++ rbraceCh :: rest)) =
        some (kvs, rest)) := by
  induction fu with
  | zero => refine ⟨?_, ?_, ?_, ?_⟩ <;> (intros; omega)
  | succ fu ih =>
    obtain ⟨ihV, ihM, ihA, ihO⟩ := ih
    refine ⟨?_, ?_, ?_, ?_⟩
    · intro v ind rest hlen hsafe
      cases v with
      | null =>
        simp only [printVal, List.cons_append, List.nil_append]
        unfold parseVal
        rw [skipWs_cons_of_nonws (by decide)]
        simp
      | bool b =>
        cases b <;>
          (simp only [printVal, List.cons_append, List.nil_append]
           unfold parseVal
           rw [skipWs_cons_of_nonws (by decide)]
           simp)
      | num n =>
        rcases Int.lt_or_le n 0 with hneg | hpos
        · have hp : printVal ind (JVal.num n) = '-' :: natToDecimal n.natAbs := by
            simp only [printVal]
            rw [intToDecimal, if_pos hneg]
          rw [hp]
          simp only [List.cons_append]
          unfold parseVal
          rw [skipWs_cons_of_nonws (by decide)]
          have hnum := parseNum_intToDecimal n rest hsafe
          rw [intToDecimal, if_pos hneg] at hnum
          simp only [List.cons_append] at hnum
          have hlb : ¬('-' = lbraceCh) := by decide
          simp [hnum, hlb]
        · obtain ⟨d, t, hd, hdig⟩ := natToDecimal_head n.natAbs
          have hp : printVal ind (JVal.num n) = d :: t := by
            simp only [printVal]
            rw [intToDecimal, if_neg (by omega), hd]
          rw [hp]
          simp only [List.cons_append]
          unfold parseVal
          rw [skipWs_cons_of_nonws (digit_not_ws hdig)]
          have hn1 : ¬(d = 'n') := digitCh_ne hdig (by decide)
          have hn2 : ¬(d = 't') := digitCh_ne hdig (by decide)
          have hn3 : ¬(d = 'f') := digitCh_ne hdig (by decide)
          have hn4 : ¬(d = '"') := digitCh_ne hdig (by decide)
          have hn5 : ¬(d = '[') := digitCh_ne hdig (by decide)
          have hn6 : ¬(d = lbraceCh) := digitCh_ne hdig (by decide)
          have hnum := parseNum_intToDecimal n rest hsafe
          rw [intToDecimal, if_neg (by omega), hd] at hnum
          simp only [List.cons_append] at hnum
          simp [hn1, hn2, hn3, hn4, hn5, hn6, hdig, hnum]
      | str str =>
        simp only [printVal, printStr, List.cons_append, List.append_assoc,
          List.singleton_append]
        unfold parseVal
        rw [skipWs_cons_of_nonws (by decide)]
        simp [parseStrBody_escBody]
      | arr es =>
        cases es with
        | nil =>
          simp only [printVal, List.cons_append, List.nil_append]
          unfold parseVal
          rw [skipWs_cons_of_nonws (by decide)]
          have h2 : skipWs (']' :: rest) = ']' :: rest := skipWs_cons_of_nonws (by decide)
          simp [h2, headIs]
        | cons x xs =>
          have hlen2 : (printVal (ind + 2) x).length < fu ∧
              (printArrTail (ind + 2) xs).length < fu := by
            simp only [printVal, List.length_cons, List.length_append, indentNl,
              List.length_replicate] at hlen
            omega
          simp only [printVal, List.cons_append, List.append_assoc,
            List.singleton_append]
          unfold parseVal
          rw [skipWs_cons_of_nonws (by decide)]
          obtain ⟨c0, t0, hx0, hw0, hne0, _, _, _⟩ := printVal_head (ind + 2) x
          have hr2 : skipWs (indentNl (ind + 2) ++ (printVal (ind + 2) x ++
              (printArrTail (ind + 2) xs ++ (indentNl ind ++ (']' :: rest))))) =
              printVal (ind + 2) x ++
              (printArrTail (ind + 2) xs ++ (indentNl ind ++ (']' :: rest))) := by
            rw [skipWs_indentNl, hx0, List.cons_append]
            exact skipWs_cons_of_nonws hw0
          have hhead : headIs (printVal (ind + 2) x ++
              (printArrTail (ind + 2) xs ++ (indentNl ind ++ (']' :: rest)))) ']' =
              false := by
            rw [hx0, List.cons_append]
            simp only [headIs, decide_eq_false_iff_not]
            intro hc
            rw [eq_iff_iff] at hne0
            exact hne0.mp hc
          have hval := ihV x (ind + 2)
            (printArrTail (ind + 2) xs ++ (indentNl ind ++ (']' :: rest)))
            hlen2.1 (numSafe_arrTail _ _ _ _)
          have htail := ihA xs (ind + 2) ind rest hlen2.2
          simp [hr2, hhead, hval, htail]
      | obj fs =>
        cases fs with
        | nil =>
          simp only [printVal, List.cons_append, List.nil_append]
          unfold parseVal
          rw [skipWs_cons_of_nonws (by decide)]
          have h2 : skipWs (rbraceCh :: rest) = rbraceCh :: rest :=
            skipWs_cons_of_nonws (by decide)
          have e1 : ¬(lbraceCh = 'n') := by decide
          have e2 : ¬(lbraceCh = 't') := by decide
          have e3 : ¬(lbraceCh = 'f') := by decide
          have e4 : ¬(lbraceCh = '"') := by decide
          have e5 : ¬(lbraceCh = '[') := by decide
          simp [h2, headIs, e1, e2, e3, e4, e5]
        | cons kv kvs =>
          have hlen2 : (printMember (ind + 2) kv).length < fu ∧
              (printObjTail (ind + 2) kvs).length < fu := by
            simp only [printVal, List.length_cons, List.length_append, indentNl,
              List.length_replicate] at hlen
            omega
          obtain ⟨k, v⟩ := kv
          simp only [printVal, List.cons_append, List.append_assoc,
            List.singleton_append]
          unfold parseVal
          rw [skipWs_cons_of_nonws (by decide)]
          have hpm : printMember (ind + 2) (k, v) ++
              (printObjTail (ind + 2) kvs ++ (indentNl ind ++ (rbraceCh :: rest))) =
              '"' :: (escBody k ++ ('"' :: ':' :: ' ' :: (printVal (ind + 2) v ++
              (printObjTail (ind + 2) kvs ++ (indentNl ind ++ (rbraceCh :: rest)))))) := by
            simp [printMember, printStr, List.append_assoc]
          have hr2 : skipWs (indentNl (ind + 2) ++ (printMember (ind + 2) (k, v) ++
              (printObjTail (ind + 2) kvs ++ (indentNl ind ++ (rbraceCh :: rest))))) =
              printMember (ind + 2) (k, v) ++
              (printObjTail (ind + 2) kvs ++ (indentNl ind ++ (rbraceCh :: rest))) := by
            rw [skipWs_indentNl, hpm]
            exact skipWs_cons_of_nonws (by decide)
          have hhead : headIs (printMember (ind + 2) (k, v) ++
              (printObjTail (ind + 2) kvs ++ (indentNl ind ++ (rbraceCh :: rest))))
              rbraceCh = false := by
            rw [hpm]
            simp only [headIs, decide_eq_false_iff_not]
            decide
          have hmem := ihM (k, v) (ind + 2)
            (printObjTail (ind + 2) kvs ++ (indentNl ind ++ (rbraceCh :: rest)))
            hlen2.1 (numSafe_objTail _ _ _ _)
          have htail := ihO kvs (ind + 2) ind rest hlen2.2
          have e1 : ¬(lbraceCh = 'n') := by decide
          have e2 : ¬(lbraceCh = 't') := by decide
          have e3 : ¬(lbraceCh = 'f') := by decide
          have e4 : ¬(lbraceCh = '"') := by decide
          have e5 : ¬(lbraceCh = '[') := by decide
          simp [hr2, hhead, hmem, htail, e1, e2, e3, e4, e5]
    · intro kv ind rest hlen hsafe
      obtain ⟨k, v⟩ := kv
      have hlenv : (printVal ind v).length < fu := by
        simp only [printMember, printStr, List.length_append, List.length_cons,
          List.singleton_append] at hlen
        omega
      have hpm : printMember ind (k, v) ++ rest =
          '"' :: (escBody k ++ ('"' :: (':' :: ' ' :: (printVal ind v ++ rest)))) := by
        simp [printMember, printStr, List.append_assoc]
      rw [hpm]
      unfold parseMember
      rw [skipWs_cons_of_nonws (by decide)]
      have hstr := parseStrBody_escBody k (':' :: ' ' :: (printVal ind v ++ rest))
      have hcolon : skipWs (':' :: ' ' :: (printVal ind v ++ rest)) =
          ':' :: ' ' :: (printVal ind v ++ rest) := skipWs_cons_of_nonws (by decide)
      have hws : parseVal fu (' ' :: (printVal ind v ++ rest)) =
          parseVal fu (printVal ind v ++ rest) :=
        parseVal_ws_irrel fu (w := [' ']) (by intro c hc; simp at hc; subst hc; decide) _
      have hval := ihV v ind rest hlenv hsafe
      simp [headIs, hstr, hcolon, hws, hval]
    · intro xs ind jnd rest hlen
      cases xs with
      | nil =>
        simp only [printArrTail, List.nil_append]
        unfold parseArrTail
        have hr : skipWs (indentNl jnd ++ (']' :: rest)) = ']' :: rest := by
          rw [skipWs_indentNl]
          exact skipWs_cons_of_nonws (by decide)
        simp [hr, headIs]
      | cons x xs =>
        have hlen2 : (printVal ind x).length < fu ∧
            (printArrTail ind xs).length < fu := by
          simp only [printArrTail, List.length_cons, List.length_append, indentNl,
            List.length_replicate] at hlen
          omega
        simp only [printArrTail, List.cons_append, List.append_assoc]
        unfold parseArrTail
        rw [skipWs_cons_of_nonws (by decide)]
        have hws : parseVal fu (indentNl ind ++ (printVal ind x ++
            (printArrTail ind xs ++ (indentNl jnd ++ (']' :: rest))))) =
            parseVal fu (printVal ind x ++
            (printArrTail ind xs ++ (indentNl jnd ++ (']' :: rest)))) :=
          parseVal_ws_irrel fu (indentNl_ws ind) _
        have hval := ihV x ind
          (printArrTail ind xs ++ (indentNl jnd ++ (']' :: rest)))
          hlen2.1 (numSafe_arrTail _ _ _ _)
        have htail := ihA xs ind jnd rest hlen2.2
        simp [headIs, hws, hval, htail]
    · intro kvs ind jnd rest hlen
      cases kvs with
      | nil =>
        simp only [printObjTail, List.nil_append]
        unfold parseObjTail
        have hr : skipWs (indentNl jnd ++ (rbraceCh :: rest)) = rbraceCh :: rest := by
          rw [skipWs_indentNl]
          exact skipWs_cons_of_nonws (by decide)
        simp [hr, headIs]
      | cons kv kvs =>
        have hlen2 : (printMember ind kv).length < fu ∧
            (printObjTail ind kvs).length < fu := by
          simp only [printObjTail, List.length_cons, List.length_append, indentNl,
            List.length_replicate] at hlen
          omega
        simp only [printObjTail, List.cons_append, List.append_assoc]
        unfold parseObjTail
        rw [skipWs_cons_of_nonws (by decide)]
        have hws : parseMember fu (indentNl ind ++ (printMember ind kv ++
            (printObjTail ind kvs ++ (indentNl jnd ++ (rbraceCh :: rest))))) =
            parseMember fu (printMember ind kv ++
            (printObjTail ind kvs ++ (indentNl jnd ++ (rbraceCh :: rest)))) :=
          parseMember_ws_irrel fu (indentNl_ws ind) _
        have hmem := ihM kv ind
          (printObjTail ind kvs ++ (indentNl jnd ++ (rbraceCh :: rest)))
          hlen2.1 (numSafe_objTail _ _ _ _)
        have htail := ihO kvs ind jnd rest hlen2.2
        have hcb : ¬(',' = rbraceCh) := by decide
        simp [headIs, hws, hmem, htail, hcb]

/-- `JSON.parse ∘ JSON.stringify(·, null, 2)` is the identity: serialization
followed by parsing gives back the document value. -/
theorem jsonParse_stringify2 (v : JVal) : jsonParse (stringify2 v) = some v := by
  unfold jsonParse stringify2
  have h := (parse_print ((printVal 0 v).length + 1)).1 v 0 [] (by omega) trivial
  rw [List.append_nil] at h
  rw [h]
  simp [skipWs]

/-! ## Sync data model (src/main/core/sync/types.ts) -/

/-- `SyncConfig` (types.ts, lines 8-16). -/
structure SyncConfig where
  enabled : Bool
  serverUrl : List Char
  username : List Char
  password : List Char
  syncInterval : Nat
  lastSyncTime : Nat
  deviceId : List Char
deriving DecidableEq

inductive SyncOp where
  | put
  | remove
deriving DecidableEq

/-- `SyncQueueItem` (types.ts, lines 21-26). -/
structure SyncQueueItem where
  docId : List Char
  operation : SyncOp
  timestamp : Nat
  retryCount : Nat
deriving DecidableEq

/-- `ConflictRecord` (types.ts, lines 31-36). -/
structure ConflictRecord where
  docId : List Char
  localDoc : JVal
  remoteDoc : JVal
  timestamp : Nat
deriving DecidableEq

/-- `SyncResult` (types.ts, lines 41-46). -/
structure SyncResult where
  uploaded : Nat
  downloaded : Nat
  conflicts : Nat
  errors : Nat
deriving DecidableEq

/-- `RemoteFileMeta` (types.ts, lines 51-54). -/
structure RemoteFileMeta where
  docId : List Char
  lastModified : Nat
deriving DecidableEq

/-! ## The remote WebDAV server and the `webdav` library client

The `webdav` npm library (external to the repository) is modelled by a
flat file-system state and the primitives `WebDAVSyncClient` calls:
`exists`, `putFileContents` (overwrite), `getFileContents`, `deleteFile`,
`createDirectory`, `getDirectoryContents`.  Per WebDAV/HTTP semantics a
`DELETE` or `GET` of an absent resource yields a 404, which the library
surfaces as a thrown error; `reachable = false` models an unreachable or
misconfigured server, on which every call fails. -/

inductive FileData where
  | text (s : List Char)
  | bin (b : List Nat)
deriving DecidableEq

structure RemoteFile where
  data : FileData
  lastmod : Nat
deriving DecidableEq

structure RemoteState where
  reachable : Bool
  dirs : List (List Char)
  files : List (List Char × RemoteFile)
deriving DecidableEq

/-- Error kinds a client call can surface. -/
inductive WErr where
  | notInitialized
  | transport
  | serialization
  | uri
deriving DecidableEq

structure FileStat where
  filename : List Char
  basename : List Char
  isFile : Bool
  lastmod : Nat
deriving DecidableEq

def lookupA {α : Type} : List (List Char × α) → List Char → Option α
  | [], _ => none
  | (k, v) :: rest, key => if k = key then some v else lookupA rest key

def eraseA {α : Type} (l : List (List Char × α)) (k : List Char) :
    List (List Char × α) :=
  l.filter (fun p => !decide (p.1 = k))

def setA {α : Type} (l : List (List Char × α)) (k : List Char) (v : α) :
    List (List Char × α) :=
  (k, v) :: eraseA l k

def davExists (r : RemoteState) (p : List Char) : Except WErr Bool :=
  if r.reachable then
    .ok ((lookupA r.files p).isSome || r.dirs.contains p)
  else .error .transport

def davPutFile (r : RemoteState) (p : List Char) (d : FileData) (now : Nat) :
    Except WErr RemoteState :=
  if r.reachable then
    .ok { r with files := setA r.files p ⟨d, now⟩ }
  else .error .transport

def davGetFile (r : RemoteState) (p : List Char) : Except WErr FileData :=
  if r.reachable then
    match lookupA r.files p with
    | some f => .ok f.data
    | none => .error .transport
  else .error .transport

def davDeleteFile (r : RemoteState) (p : List Char) : Except WErr RemoteState :=
  if r.reachable then
    if (lookupA r.files p).isSome then
      .ok { r with files := eraseA r.files p }
    else .error .transport
  else .error .transport

def davCreateDirectory (r : RemoteState) (p : List Char) :
    Except WErr RemoteState :=
  if r.reachable then .ok { r with dirs := p :: r.dirs } else .error .transport

/-- Direct-child name of `p` below directory `dir`, if any. -/
def childNameOf (dir p : List Char) : Option (List Char) :=
  if (dir ++ ['/']).isPrefixOf p then
    let rest := p.drop (dir.length + 1)
    if rest.isEmpty || rest.contains '/' then none else some rest
  else none

def davGetDirectoryContents (r : RemoteState) (dir : List Char) :
    Except WErr (List FileStat) :=
  if r.reachable then
    .ok ((r.files.filterMap fun pf =>
        (childNameOf dir pf.1).map fun nm => ⟨pf.1, nm, true, pf.2.lastmod⟩) ++
      (r.dirs.filterMap fun d =>
        (childNameOf dir d).map fun nm => ⟨d, nm, false, 0⟩))
  else .error .transport

/-! ## JS string coercion and property access used by the client -/

/-- Last-binding-wins property lookup of JS objects built by `JSON.parse`. -/
def getFieldAux : List (List Char × JVal) → List Char → Option JVal
  | [], _ => none
  | (k1, v) :: rest, k =>
    match getFieldAux rest k with
    | some w => some w
    | none => if k1 = k then some v else none

def getField : JVal → List Char → Option JVal
  | .obj kvs, k => getFieldAux kvs k
  | _, _ => none

mutual

/-- JS `String(v)` coercion, as applied by `encodeURIComponent` to its
argument. -/
def jsToStr : JVal → List Char
  | .null => "null".data
  | .bool true => "true".data
  | .bool false => "false".data
  | .num n => intToDecimal n
  | .str s => s
  | .arr xs => jsList xs
  | .obj _ => "[object Object]".data

def jsList : List JVal → List Char
  | [] => []
  | x :: xs =>
    (match x with
     | .null => []
     | y => jsToStr y) ++
    (match xs with
     | [] => []
     | _ => ',' :: jsList xs)

end

def jsStringOf : Option JVal → List Char
  | none => "undefined".data
  | some x => jsToStr x

/-- The value of `doc._id` coerced to a string (JS `undefined` becomes
`"undefined"` under coercion). -/
def jsDocId (doc : JVal) : List Char := jsStringOf (getField doc ("_id".data))

/-! ## Remote paths -/

def ztoolsDir : List Char := "/ztools-sync".data

def attachmentsDir : List Char := "/ztools-sync/attachments".data

def jsonExt : List Char := ".json".data

def binExt : List Char := ".bin".data

/-- `/ztools-sync/${encodeURIComponent(docId)}.json`. -/
def docPath (docId : List Char) : List Char :=
  "/ztools-sync/".data ++ encodeURIComponent docId ++ jsonExt

/-- `/ztools-sync/attachments/${encodeURIComponent(docId)}.bin`. -/
def attBinPath (docId : List Char) : List Char :=
  "/ztools-sync/attachments/".data ++ encodeURIComponent docId ++ binExt

/-- `/ztools-sync/attachments/${encodeURIComponent(docId)}.meta.json`. -/
def attMetaPath (docId : List Char) : List Char :=
  "/ztools-sync/attachments/".data ++ encodeURIComponent docId ++ ".meta.json".data

/-- JS `String.prototype.replace` with a string pattern: replaces only the
first occurrence. -/
def replaceFirst (pat repl : List Char) : List Char → List Char
  | [] => []
  | c :: cs =>
    if pat.isPrefixOf (c :: cs) then repl ++ (c :: cs).drop pat.length
    else c :: replaceFirst pat repl cs

/-- `String.prototype.endsWith`. -/
def endsWithStr (s pat : List Char) : Bool := pat.isSuffixOf s

/-- Whether `pat` occurs as a contiguous substring. -/
def hasOcc (pat : List Char) : List Char → Bool
  | [] => pat.isEmpty
  | c :: cs => pat.isPrefixOf (c :: cs) || hasOcc pat cs

/-! ## `WebDAVSyncClient` (src/unnamed/part_002)

The class holds `client: WebDAVClient | null`, set by `init` and checked
by every operation; the client value is modelled as `Option SyncConfig`.
Each operation takes and returns the remote state explicitly; an error
result leaves the returned state exactly as far as the TS code got. -/

namespace WebDAVSyncClient

/-- `testConnection` (lines 29-40): lists `/`, mapping any failure to a
connection error. -/
def testConnection (cl : Option SyncConfig) (r : RemoteState) :
    Except WErr Bool × RemoteState :=
  match cl with
  | none => (.error .notInitialized, r)
  | some _ =>
    match davGetDirectoryContents r ("/".data) with
    | .ok _ => (.ok true, r)
    | .error _ => (.error .transport, r)

/-- `ensureRemoteDirectory` (lines 45-60): creates `/ztools-sync` and
`/ztools-sync/attachments` only when absent; silently returns when the
client is unset. -/
def ensureRemoteDirectory (cl : Option SyncConfig) (r : RemoteState) :
    Except WErr Unit × RemoteState :=
  match cl with
  | none => (.ok (), r)
  | some _ =>
    match davExists r ztoolsDir with
    | .error e => (.error e, r)
    | .ok ex =>
      match (if ex then Except.ok r else davCreateDirectory r ztoolsDir) with
      | .error e => (.error e, r)
      | .ok r1 =>
        match davExists r1 attachmentsDir with
        | .error e => (.error e, r1)
        | .ok ex2 =>
          match (if ex2 then Except.ok r1 else davCreateDirectory r1 attachmentsDir) with
          | .error e => (.error e, r1)
          | .ok r2 => (.ok (), r2)

/-- `init` (lines 13-24): sets `this.client`, then `testConnection`, then
`ensureRemoteDirectory`.  The middle component of the result is the new
`this.client`: note it stays set even when `testConnection` throws. -/
def init (cfg : SyncConfig) (r : RemoteState) :
    Except WErr Unit × Option SyncConfig × RemoteState :=
  let cl : Option SyncConfig := some cfg
  match testConnection cl r with
  | (.error e, r1) => (.error e, cl, r1)
  | (.ok _, r1) =>
    match ensureRemoteDirectory cl r1 with
    | (.error e, r2) => (.error e, cl, r2)
    | (.ok _, r2) => (.ok (), cl, r2)

/-- `uploadDoc` (lines 65-83): serializes with `JSON.stringify(doc, null,
2)` and overwrites `/ztools-sync/${encodeURIComponent(doc._id)}.json`;
rethrows any transport failure. -/
def uploadDoc (cl : Option SyncConfig) (doc : JVal) (now : Nat)
    (r : RemoteState) : Except WErr Unit × RemoteState :=
  match cl with
  | none => (.error .notInitialized, r)
  | some _ =>
    match davPutFile r (docPath (jsDocId doc)) (.text (stringify2 doc)) now with
    | .ok r2 => (.ok (), r2)
    | .error e => (.error e, r)

/-- `downloadDoc` (lines 88-103): absent remote path gives `null`;
otherwise the content is fetched and `JSON.parse`d. -/
def downloadDoc (cl : Option SyncConfig) (docId : List Char) (r : RemoteState) :
    Except WErr (Option JVal) × RemoteState :=
  match cl with
  | none => (.error .notInitialized, r)
  | some _ =>
    match davExists r (docPath docId) with
    | .error e => (.error e, r)
    | .ok false => (.ok none, r)
    | .ok true =>
      match davGetFile r (docPath docId) with
      | .error e => (.error e, r)
      | .ok (.bin _) => (.error .serialization, r)
      | .ok (.text content) =>
        match jsonParse content with
        | some v => (.ok (some v), r)
        | none => (.error .serialization, r)

/-- One `{docId, lastModified}` entry per listed file, by stripping the
first `.json` occurrence from the basename (JS `replace`) and
percent-decoding; a decode failure (`URIError`) aborts the listing. -/
def decodeDocEntries : List FileStat → Option (List RemoteFileMeta)
  | [] => some []
  | i :: is =>
    match decodeURIComponent (replaceFirst jsonExt [] i.basename) with
    | none => none
    | some docId =>
      match decodeDocEntries is with
      | none => none
      | some metas => some (⟨docId, i.lastmod⟩ :: metas)

/-- `listRemoteDocsWithMeta` (lines 108-136): lists `/ztools-sync`,
keeps files named `*.json`, decodes each basename back to a doc id and
pairs it with the file's modification time.  The `Array.isArray`
normalization of the `details: true` response shape (lines 117-123) is a
transport-format shim with no effect in the typed model. -/
def listRemoteDocsWithMeta (cl : Option SyncConfig) (r : RemoteState) :
    Except WErr (List RemoteFileMeta) × RemoteState :=
  match cl with
  | none => (.error .notInitialized, r)
  | some _ =>
    match davGetDirectoryContents r ztoolsDir with
    | .error e => (.error e, r)
    | .ok contents =>
      match decodeDocEntries
          (contents.filter fun i => i.isFile && endsWithStr i.filename jsonExt) with
      | some metas => (.ok metas, r)
      | none => (.error .uri, r)

/-- `deleteDoc` (lines 141-150): deletes the remote file with no
existence check beforehand. -/
def deleteDoc (cl : Option SyncConfig) (docId : List Char) (r : RemoteState) :
    Except WErr Unit × RemoteState :=
  match cl with
  | none => (.error .notInitialized, r)
  | some _ =>
    match davDeleteFile r (docPath docId) with
    | .ok r2 => (.ok (), r2)
    | .error e => (.error e, r)

/-- `uploadAttachment` (lines 155-176): writes the binary payload, then
the optional metadata sidecar. -/
def uploadAttachment (cl : Option SyncConfig) (docId : List Char)
    (payload : List Nat) (metadata : Option JVal) (now : Nat) (r : RemoteState) :
    Except WErr Unit × RemoteState :=
  match cl with
  | none => (.error .notInitialized, r)
  | some _ =>
    match davPutFile r (attBinPath docId) (.bin payload) now with
    | .error e => (.error e, r)
    | .ok r1 =>
      match metadata with
      | none => (.ok (), r1)
      | some m =>
        match davPutFile r1 (attMetaPath docId) (.text (stringify2 m)) now with
        | .error e => (.error e, r1)
        | .ok r2 => (.ok (), r2)

/-- `getFileContents(..., format: 'binary')` on a text file returns its
bytes. -/
def asBytes : FileData → List Nat
  | .bin b => b
  | .text s => s.foldr (fun c acc => utf8Bytes c ++ acc) []

structure AttachmentPayload where
  data : List Nat
  metadata : Option JVal
deriving DecidableEq

/-- `downloadAttachment` (lines 181-215): absent payload gives `null`;
the metadata sidecar is read inside a `try`/`catch`, so an absent
sidecar, a failed fetch or malformed JSON all just leave `metadata`
undefined. -/
def downloadAttachment (cl : Option SyncConfig) (docId : List Char)
    (r : RemoteState) : Except WErr (Option AttachmentPayload) × RemoteState :=
  match cl with
  | none => (.error .notInitialized, r)
  | some _ =>
    match davExists r (attBinPath docId) with
    | .error e => (.error e, r)
    | .ok false => (.ok none, r)
    | .ok true =>
      match davGetFile r (attBinPath docId) with
      | .error e => (.error e, r)
      | .ok d =>
        let metadata : Option JVal :=
          match davExists r (attMetaPath docId) with
          | .error _ => none
          | .ok false => none
          | .ok true =>
            match davGetFile r (attMetaPath docId) with
            | .error _ => none
            | .ok (.bin _) => none
            | .ok (.text mc) => jsonParse mc
        (.ok (some ⟨asBytes d, metadata⟩), r)

/-- `deleteAttachment` (lines 220-232): checks existence first and
deletes only when present, so an absent attachment is a no-op success. -/
def deleteAttachment (cl : Option SyncConfig) (docId : List Char)
    (r : RemoteState) : Except WErr Unit × RemoteState :=
  match cl with
  | none => (.error .notInitialized, r)
  | some _ =>
    match davExists r (attBinPath docId) with
    | .error e => (.error e, r)
    | .ok true =>
      match davDeleteFile r (attBinPath docId) with
      | .ok r2 => (.ok (), r2)
      | .error e => (.error e, r)
    | .ok false => (.ok (), r)

def decodeAttEntries : List FileStat → Option (List (List Char))
  | [] => some []
  | i :: is =>
    match decodeURIComponent (replaceFirst binExt [] i.basename) with
    | none => none
    | some attId =>
      match decodeAttEntries is with
      | none => none
      | some ids => some (attId :: ids)

/-- `listRemoteAttachments` (lines 237-261). -/
def listRemoteAttachments (cl : Option SyncConfig) (r : RemoteState) :
    Except WErr (List (List Char)) × RemoteState :=
  match cl with
  | none => (.error .notInitialized, r)
  | some _ =>
    match davGetDirectoryContents r attachmentsDir with
    | .error e => (.error e, r)
    | .ok contents =>
      match decodeAttEntries
          (contents.filter fun i => i.isFile && endsWithStr i.filename binExt) with
      | some ids => (.ok ids, r)
      | none => (.error .uri, r)

end WebDAVSyncClient

/-! ## Revision generator (spec-modelled)

Modelled from the spec: `generateNewRev` lives in
`src/main/core/lmdb/utils.ts`, which is not among the provided source
files — only its test suite (src/tests/main/lmdbUtils.test.ts, lines
155-183) is.  Spec §4.2: parse the leading integer of `previousRev`
(treat missing or non-numeric-prefixed input as 0), increment it, append
a freshly generated random 32-hex-character suffix.  The random source is
modelled by the explicit `seed` argument. -/

def leadingSeq : Option (List Char) → Nat
  | none => 0
  | some s =>
    let ds := s.takeWhile isDigitCh
    if ds.isEmpty then 0 else digitsToNat ds

def randomHex32 (seed : Nat) : List Char :=
  (List.range 32).map fun i => hexLower (seed / 16 ^ i % 16)

def generateNewRev (previousRev : Option (List Char)) (seed : Nat) : List Char :=
  natToDecimal (leadingSeq previousRev + 1) ++ '-' :: randomHex32 seed

def isHexLowerCh (c : Char) : Bool :=
  ('0' ≤ c && c ≤ '9') || ('a' ≤ c && c ≤ 'f')

/-- The rev matches `^<n>-[0-9a-f]{32}$`. -/
def matchesRevFormat (n : Nat) (s : List Char) : Prop :=
  ∃ h : List Char,
    s = natToDecimal n ++ '-' :: h ∧ h.length = 32 ∧ ∀ c ∈ h, isHexLowerCh c = true

theorem randomHex32_length (seed : Nat) : (randomHex32 seed).length = 32 := by
  simp [randomHex32]

theorem isHexLowerCh_hexLower {k : Nat} (h : k < 16) :
    isHexLowerCh (hexLower k) = true := by
  interval_cases k <;> decide

theorem randomHex32_hex (seed : Nat) :
    ∀ c ∈ randomHex32 seed, isHexLowerCh c = true := by
  intro c hc
  simp only [randomHex32, List.mem_map] at hc
  obtain ⟨i, _, rfl⟩ := hc
  exact isHexLowerCh_hexLower (Nat.mod_lt _ (by omega))

/-! ## Sync Engine (spec-modelled)

Modelled from the spec: the Sync Engine implementation is not among the
provided source files — only its data types (src/main/core/sync/types.ts)
are.  Spec §4.5, one cycle: (2) pull every remote doc whose
`lastModified` is newer than its recorded checkpoint (or unknown); (3)
before applying a pull, if a Sync Queue entry for the id is pending and
the local content differs from the pulled content, create a
`ConflictRecord{docId, localDoc, remoteDoc, timestamp}`, apply nothing
and push nothing for that id this cycle; (4) push every remaining
non-conflicted queue entry, removing it and advancing its checkpoint on
success.  The remote is abstracted to one `{docId, content,
lastModified}` entry per document, and remote transfers in this model
always succeed (per-document transport failures are outside the
conflict rule being verified). -/

structure RemoteDoc where
  docId : List Char
  content : JVal
  lastModified : Nat
deriving DecidableEq

structure EngineState where
  localDocs : List (List Char × JVal)
  queue : List SyncQueueItem
  checkpoints : List (List Char × Nat)
  conflicts : List ConflictRecord
deriving DecidableEq

def findQueued (q : List SyncQueueItem) (id : List Char) : Option SyncQueueItem :=
  q.find? fun it => it.docId == id

/-- Spec §4.5.2: a remote doc is pulled when its `lastModified` is newer
than the recorded per-doc checkpoint, or no checkpoint is known. -/
def isNewer (checkpoints : List (List Char × Nat)) (e : RemoteDoc) : Bool :=
  match lookupA checkpoints e.docId with
  | none => true
  | some cp => cp < e.lastModified

/-- Pull phase (spec §4.5.2-3).  Returns the updated engine state, the
ids found in conflict, the number of applied downloads and the number of
conflicts recorded. -/
def pullPhase (now : Nat) :
    List RemoteDoc → EngineState → EngineState × List (List Char) × Nat × Nat
  | [], st => (st, [], 0, 0)
  | e :: es, st =>
    if isNewer st.checkpoints e then
      match findQueued st.queue e.docId, lookupA st.localDocs e.docId with
      | some _, some lc =>
        if lc = e.content then
          let st1 : EngineState :=
            { st with localDocs := setA st.localDocs e.docId e.content,
                      checkpoints := setA st.checkpoints e.docId e.lastModified }
          let (st2, cf, dn, cn) := pullPhase now es st1
          (st2, cf, dn + 1, cn)
        else
          let st1 : EngineState :=
            { st with conflicts := st.conflicts ++ [⟨e.docId, lc, e.content, now⟩] }
          let (st2, cf, dn, cn) := pullPhase now es st1
          (st2, e.docId :: cf, dn, cn + 1)
      | _, _ =>
        let st1 : EngineState :=
          { st with localDocs := setA st.localDocs e.docId e.content,
                    checkpoints := setA st.checkpoints e.docId e.lastModified }
        let (st2, cf, dn, cn) := pullPhase now es st1
        (st2, cf, dn + 1, cn)
    else
      pullPhase now es st

def setRemote (remote : List RemoteDoc) (id : List Char) (content : JVal)
    (now : Nat) : List RemoteDoc :=
  ⟨id, content, now⟩ :: remote.filter fun e => !decide (e.docId = id)

def removeRemote (remote : List RemoteDoc) (id : List Char) : List RemoteDoc :=
  remote.filter fun e => !decide (e.docId = id)

/-- Push phase (spec §4.5.4): drains non-conflicted queue entries,
uploading or deleting remotely, removing each drained entry and advancing
its checkpoint; a `put` whose local doc is missing is kept queued with
`retryCount` incremented and counted as an error.  Returns the remaining
queue, checkpoints, remote, and the uploaded/error tallies. -/
def pushPhase (now : Nat) (conflicted : List (List Char)) :
    List SyncQueueItem → List (List Char × JVal) → List (List Char × Nat) →
    List RemoteDoc →
    List SyncQueueItem × List (List Char × Nat) × List RemoteDoc × Nat × Nat
  | [], _, checkpoints, remote => ([], checkpoints, remote, 0, 0)
  | it :: its, localDocs, checkpoints, remote =>
    if conflicted.contains it.docId then
      let (q, cps, rem, up, er) := pushPhase now conflicted its localDocs checkpoints remote
      (it :: q, cps, rem, up, er)
    else
      match it.operation with
      | .put =>
        match lookupA localDocs it.docId with
        | some content =>
          let (q, cps, rem, up, er) := pushPhase now conflicted its localDocs
            (setA checkpoints it.docId now) (setRemote remote it.docId content now)
          (q, cps, rem, up + 1, er)
        | none =>
          let (q, cps, rem, up, er) :=
            pushPhase now conflicted its localDocs checkpoints remote
          ({ it with retryCount := it.retryCount + 1 } :: q, cps, rem, up, er + 1)
      | .remove =>
        let (q, cps, rem, up, er) := pushPhase now conflicted its localDocs
          (setA checkpoints it.docId now) (removeRemote remote it.docId)
        (q, cps, rem, up + 1, er)

/-- One sync cycle (spec §4.5): pull with conflict detection, then push,
then report `SyncResult`. -/
def syncCycle (now : Nat) (remote : List RemoteDoc) (st : EngineState) :
    EngineState × List RemoteDoc × SyncResult :=
  match pullPhase now remote st with
  | (st1, conflicted, downloaded, conflictsN) =>
    match pushPhase now conflicted st1.queue st1.localDocs st1.checkpoints remote with
    | (queue2, cps2, remote2, uploaded, errors) =>
      ({ st1 with queue := queue2, checkpoints := cps2 }, remote2,
        ⟨uploaded, downloaded, conflictsN, errors⟩)

/-! ## Supporting lemmas for the client theorems -/

theorem lookupA_setA_self {α : Type} (l : List (List Char × α)) (k : List Char)
    (v : α) : lookupA (setA l k v) k = some v := by
  simp [setA, lookupA]

theorem lookupA_eraseA_ne {α : Type} (l : List (List Char × α)) {k k' : List Char}
    (h : ¬(k' = k)) : lookupA (eraseA l k) k' = lookupA l k' := by
  induction l with
  | nil => rfl
  | cons p t ih =>
    obtain ⟨a, b⟩ := p
    by_cases hak : a = k
    · subst hak
      simp only [eraseA, List.filter_cons, decide_eq_true_eq]
      rw [if_neg (by simp)]
      rw [show List.filter (fun p => !decide (p.1 = a)) t = eraseA t a from rfl, ih]
      simp only [lookupA]
      rw [if_neg (fun hh => h hh.symm)]
    · simp only [eraseA, List.filter_cons, decide_eq_true_eq]
      rw [if_pos (by simp [hak])]
      simp only [lookupA]
      by_cases hak2 : a = k'
      · simp [hak2]
      · rw [if_neg hak2, if_neg hak2,
          show List.filter (fun p => !decide (p.1 = k)) t = eraseA t k from rfl, ih]

theorem lookupA_setA_ne {α : Type} (l : List (List Char × α)) {k k' : List Char}
    (v : α) (h : ¬(k' = k)) : lookupA (setA l k v) k' = lookupA l k' := by
  simp only [setA, lookupA]
  rw [if_neg (fun hh => h hh.symm)]
  exact lookupA_eraseA_ne l h

theorem isPrefixOf_append_self (a b : List Char) : a.isPrefixOf (a ++ b) = true := by
  induction a with
  | nil => simp [List.isPrefixOf]
  | cons c cs ih => simp [List.isPrefixOf, ih]

theorem isSuffixOf_append_self (a b : List Char) : b.isSuffixOf (a ++ b) = true := by
  simp [List.isSuffixOf, List.reverse_append, isPrefixOf_append_self]

/-- On a string at least as long as the pattern, a prefix test ignores
whatever comes after the string. -/
theorem isPrefixOf_append_of_le (pat x y : List Char) (h : pat.length ≤ x.length) :
    pat.isPrefixOf (x ++ y) = pat.isPrefixOf x := by
  induction pat generalizing x with
  | nil => simp [List.isPrefixOf]
  | cons p ps ih =>
    cases x with
    | nil => simp at h
    | cons c cs =>
      simp only [List.cons_append, List.isPrefixOf, List.append_eq]
      rw [ih cs (by simpa using Nat.le_of_succ_le_succ h)]

/-- `".json"` has no self-overlap, so it is never a prefix of `x ++ ".json"`
for nonempty `x` free of `".json"`. -/
theorem jsonExt_not_prefix_append (x : List Char) (hx : x ≠ [])
    (h : hasOcc jsonExt x = false) : jsonExt.isPrefixOf (x ++ jsonExt) = false := by
  match x, hx with
  | [c1], _ =>
    simp [jsonExt, List.isPrefixOf]
  | [c1, c2], _ =>
    simp [jsonExt, List.isPrefixOf]
  | [c1, c2, c3], _ =>
    simp [jsonExt, List.isPrefixOf]
  | [c1, c2, c3, c4], _ =>
    simp [jsonExt, List.isPrefixOf]
  | c1 :: c2 :: c3 :: c4 :: c5 :: t, _ =>
    rw [isPrefixOf_append_of_le _ _ _ (by simp [jsonExt])]
    simp only [hasOcc, Bool.or_eq_false_iff] at h
    exact h.1

theorem replaceFirst_jsonExt_append (x : List Char) (h : hasOcc jsonExt x = false) :
    replaceFirst jsonExt [] (x ++ jsonExt) = x := by
  induction x with
  | nil => decide
  | cons c cs ih =>
    have hocc : hasOcc jsonExt cs = false := by
      simp only [hasOcc, Bool.or_eq_false_iff] at h
      exact h.2
    simp only [List.cons_append, replaceFirst, List.append_eq]
    rw [show c :: (cs ++ jsonExt) = (c :: cs) ++ jsonExt from rfl,
      jsonExt_not_prefix_append (c :: cs) (by simp) h]
    simp only [Bool.false_eq_true, if_false]
    rw [ih hocc]

theorem not_mem_append_of_not_mem {c : Char} {a b : List Char}
    (ha : c ∉ a) (hb : c ∉ b) : c ∉ a ++ b := by
  simp [List.mem_append]
  exact ⟨ha, hb⟩

theorem jsDocId_of_str (doc : JVal) (id : List Char)
    (hid : getField doc ("_id".data) = some (.str id)) : jsDocId doc = id := by
  unfold jsDocId jsStringOf
  rw [hid]
  unfold jsToStr
  rfl

theorem uploadDoc_ok (cfg : SyncConfig) (doc : JVal) (now : Nat) (r : RemoteState)
    (hreach : r.reachable = true) :
    WebDAVSyncClient.uploadDoc (some cfg) doc now r =
      (.ok (), { r with files := setA r.files (docPath (jsDocId doc)) ⟨.text (stringify2 doc), now⟩ }) := by
  unfold WebDAVSyncClient.uploadDoc davPutFile
  rw [hreach]
  simp

theorem downloadDoc_found (cfg : SyncConfig) (id : List Char) (r : RemoteState)
    (f : RemoteFile) (c : List Char) (v : JVal)
    (hreach : r.reachable = true)
    (hf : lookupA r.files (docPath id) = some f)
    (hd : f.data = FileData.text c)
    (hp : jsonParse c = some v) :
    WebDAVSyncClient.downloadDoc (some cfg) id r = (.ok (some v), r) := by
  unfold WebDAVSyncClient.downloadDoc davExists davGetFile
  rw [hreach]
  simp [hf, hd, hp]

/-! ## Sample values used by the concrete witnesses -/

def cfg0 : SyncConfig := ⟨true, [], [], [], 0, 0, []⟩

/-- A reachable remote with the sync directories and no files. -/
def rEmpty : RemoteState := ⟨true, [ztoolsDir, attachmentsDir], []⟩

/-- An unreachable remote. -/
def rBad : RemoteState := ⟨false, [], []⟩

def doc0 : JVal := .obj [("_id".data, .str ("d1".data)), ("content".data, .num 42)]

/-! ## Claims -/

/-- Claim C2 (code bug): `deleteDoc` is specified to treat an already
absent remote file as success, but the code (part_002, lines 141-150)
calls the transport's `deleteFile` without any existence check, and a
WebDAV `DELETE` of an absent resource fails with a 404 the library
surfaces as an error.  At the concrete failing input — a reachable remote
holding no file for id `doc1` — `deleteDoc` returns a transport error
instead of succeeding. -/
theorem deleteDoc_absent_errors :
    WebDAVSyncClient.deleteDoc (some cfg0) ("doc1".data) rEmpty =
      (.error .transport, rEmpty) := by
  rfl

/-- Claim C6: on an initialized client with reachable remote,
`downloadDoc(id)` returns `null` (not an error) when the remote path for
`id` does not exist, and the parsed document when it does. -/
theorem downloadDoc_absent_null_present_parsed (cfg : SyncConfig)
    (id : List Char) (r : RemoteState) (hreach : r.reachable = true) :
    (lookupA r.files (docPath id) = none → docPath id ∉ r.dirs →
      WebDAVSyncClient.downloadDoc (some cfg) id r = (.ok none, r)) ∧
    (∀ (f : RemoteFile) (c : List Char) (v : JVal),
      lookupA r.files (docPath id) = some f → f.data = FileData.text c →
      jsonParse c = some v →
      WebDAVSyncClient.downloadDoc (some cfg) id r = (.ok (some v), r)) := by
  constructor
  · intro hnone hnd
    unfold WebDAVSyncClient.downloadDoc davExists
    rw [hreach]
    simp [hnone, hnd]
  · intro f c v hf hd hp
    exact downloadDoc_found cfg id r f c v hreach hf hd hp

theorem downloadDoc_absent_null_present_parsed_witness :
    (rEmpty.reachable = true) ∧
    (WebDAVSyncClient.downloadDoc (some cfg0) ("d1".data) rEmpty = (.ok none, rEmpty)) := by
  refine ⟨rfl, ?_⟩
  exact (downloadDoc_absent_null_present_parsed cfg0 ("d1".data) rEmpty rfl).1
    (by decide) (by decide)

/-- Claim C9: `deleteAttachment` checks remote existence first and
treats an already-absent attachment as success, whereas `deleteDoc`
performs no such check and so fails on an absent file. -/
theorem deleteAttachment_checks_deleteDoc_does_not (cfg : SyncConfig)
    (id : List Char) (r : RemoteState) (hreach : r.reachable = true) :
    (lookupA r.files (attBinPath id) = none → attBinPath id ∉ r.dirs →
      WebDAVSyncClient.deleteAttachment (some cfg) id r = (.ok (), r)) ∧
    (∀ f, lookupA r.files (attBinPath id) = some f →
      WebDAVSyncClient.deleteAttachment (some cfg) id r =
        (.ok (), { r with files := eraseA r.files (attBinPath id) })) ∧
    (lookupA r.files (docPath id) = none →
      WebDAVSyncClient.deleteDoc (some cfg) id r = (.error .transport, r)) := by
  refine ⟨?_, ?_, ?_⟩
  · intro hnone hnd
    unfold WebDAVSyncClient.deleteAttachment davExists
    rw [hreach]
    simp [hnone, hnd]
  · intro f hf
    unfold WebDAVSyncClient.deleteAttachment davExists davDeleteFile
    rw [hreach]
    simp [hf]
  · intro hnone
    unfold WebDAVSyncClient.deleteDoc davDeleteFile
    rw [hreach]
    simp [hnone]

theorem deleteAttachment_checks_deleteDoc_does_not_witness :
    (rEmpty.reachable = true) ∧
    (WebDAVSyncClient.deleteAttachment (some cfg0) ("a1".data) rEmpty = (.ok (), rEmpty)) ∧
    (WebDAVSyncClient.deleteDoc (some cfg0) ("a1".data) rEmpty =
      (.error .transport, rEmpty)) := by
  have h := deleteAttachment_checks_deleteDoc_does_not cfg0 ("a1".data) rEmpty rfl
  exact ⟨rfl, h.1 (by decide) (by decide), h.2.2 (by decide)⟩

/-- Claim C10: when the binary payload exists remotely,
`downloadAttachment` returns it even if the metadata sidecar is missing
or holds malformed JSON — a metadata failure only leaves `metadata`
undefined; when the payload is absent the call returns `null`. -/
theorem downloadAttachment_metadata_resilient (cfg : SyncConfig)
    (id : List Char) (r : RemoteState) (hreach : r.reachable = true) :
    (∀ (f : RemoteFile) (b : List Nat),
      lookupA r.files (attBinPath id) = some f → f.data = FileData.bin b →
      ((lookupA r.files (attMetaPath id) = none → attMetaPath id ∉ r.dirs →
          WebDAVSyncClient.downloadAttachment (some cfg) id r =
            (.ok (some ⟨b, none⟩), r)) ∧
        (∀ (g : RemoteFile) (c : List Char),
          lookupA r.files (attMetaPath id) = some g → g.data = FileData.text c →
          jsonParse c = none →
          WebDAVSyncClient.downloadAttachment (some cfg) id r =
            (.ok (some ⟨b, none⟩), r)))) ∧
    (lookupA r.files (attBinPath id) = none → attBinPath id ∉ r.dirs →
      WebDAVSyncClient.downloadAttachment (some cfg) id r = (.ok none, r)) := by
  constructor
  · intro f b hf hd
    constructor
    · intro hmnone hmnd
      unfold WebDAVSyncClient.downloadAttachment davExists davGetFile
      rw [hreach]
      simp [hf, hd, hmnone, hmnd, WebDAVSyncClient.asBytes]
    · intro g c hg hgd hp
      unfold WebDAVSyncClient.downloadAttachment davExists davGetFile
      rw [hreach]
      simp [hf, hd, hg, hgd, hp, WebDAVSyncClient.asBytes]
  · intro hnone hnd
    unfold WebDAVSyncClient.downloadAttachment davExists
    rw [hreach]
    simp [hnone, hnd]

def rAtt : RemoteState :=
  ⟨true, [ztoolsDir, attachmentsDir],
    [(attBinPath ("a1".data), ⟨.bin [7, 8], 3⟩),
     (attMetaPath ("a1".data), ⟨.text ("[".data), 3⟩)]⟩

theorem downloadAttachment_metadata_resilient_witness :
    (rAtt.reachable = true) ∧
    (WebDAVSyncClient.downloadAttachment (some cfg0) ("a1".data) rAtt =
      (.ok (some ⟨[7, 8], none⟩), rAtt)) ∧
    (WebDAVSyncClient.downloadAttachment (some cfg0) ("zz".data) rAtt =
      (.ok none, rAtt)) := by
  have h1 := (downloadAttachment_metadata_resilient cfg0 ("a1".data) rAtt rfl).1
    ⟨.bin [7, 8], 3⟩ [7, 8] (by decide) rfl
  have h2 := (downloadAttachment_metadata_resilient cfg0 ("zz".data) rAtt rfl).2
  exact ⟨rfl, h1.2 ⟨.text ("[".data), 3⟩ ("[".data) (by decide) rfl (by decide),
    h2 (by decide) (by decide)⟩

/-- Claim C8 (corrected), counterexample to the claim as stated: after an
`init` that failed its connection test, `init` has never *successfully*
completed, yet the client handle is already set (part_002 line 14 assigns
`this.client` before `testConnection` runs), so a subsequent `uploadDoc`
does not throw the not-initialized error — it proceeds and performs
remote I/O, changing the remote state. -/
theorem remote_op_after_failed_init_performs_io :
    (WebDAVSyncClient.init cfg0 rBad).1 = .error .transport ∧
    (WebDAVSyncClient.init cfg0 rBad).2.1 = some cfg0 ∧
    (WebDAVSyncClient.uploadDoc (WebDAVSyncClient.init cfg0 rBad).2.1 doc0 3 rEmpty).1
      = .ok () ∧
    (WebDAVSyncClient.uploadDoc (WebDAVSyncClient.init cfg0 rBad).2.1 doc0 3 rEmpty).2.files
      ≠ rEmpty.files := by
  exact ⟨rfl, rfl, rfl, by decide⟩

/-- Claim C8 (amended): before `init` has been called at all — the
internal client handle still unset — every remote operation of
`WebDAVSyncClient` fails immediately with the not-initialized error and
returns the remote state untouched, performing no remote I/O.  (After a
*failed* `init` the handle is set, so this guard no longer applies.) -/
theorem ops_uninitialized_fail_no_io (r : RemoteState) (doc m : JVal)
    (id : List Char) (payload : List Nat) (now : Nat) :
    WebDAVSyncClient.testConnection none r = (.error .notInitialized, r) ∧
    WebDAVSyncClient.uploadDoc none doc now r = (.error .notInitialized, r) ∧
    WebDAVSyncClient.downloadDoc none id r = (.error .notInitialized, r) ∧
    WebDAVSyncClient.listRemoteDocsWithMeta none r = (.error .notInitialized, r) ∧
    WebDAVSyncClient.deleteDoc none id r = (.error .notInitialized, r) ∧
    WebDAVSyncClient.uploadAttachment none id payload (some m) now r =
      (.error .notInitialized, r) ∧
    WebDAVSyncClient.downloadAttachment none id r = (.error .notInitialized, r) ∧
    WebDAVSyncClient.deleteAttachment none id r = (.error .notInitialized, r) ∧
    WebDAVSyncClient.listRemoteAttachments none r = (.error .notInitialized, r) :=
  ⟨rfl, rfl, rfl, rfl, rfl, rfl, rfl, rfl, rfl⟩

/-- Claim C3: on an initialized client with a reachable remote,
`uploadDoc(doc)` followed by `downloadDoc(doc._id)` returns a document
equal to `doc` — serialization with `JSON.stringify(doc, null, 2)`
followed by `JSON.parse` is the identity on the document value, so in
particular the returned content is deep-equal to `doc`'s content. -/
theorem uploadDoc_then_downloadDoc (cfg : SyncConfig) (doc : JVal)
    (id : List Char) (now : Nat) (r : RemoteState)
    (hreach : r.reachable = true)
    (hid : getField doc ("_id".data) = some (.str id)) :
    ∃ r2 : RemoteState,
      WebDAVSyncClient.uploadDoc (some cfg) doc now r = (.ok (), r2) ∧
      WebDAVSyncClient.downloadDoc (some cfg) id r2 = (.ok (some doc), r2) := by
  refine ⟨_, uploadDoc_ok cfg doc now r hreach, ?_⟩
  apply downloadDoc_found cfg id _ ⟨.text (stringify2 doc), now⟩ (stringify2 doc) doc
  · exact hreach
  · show lookupA (setA r.files (docPath (jsDocId doc)) _) (docPath id) = _
    rw [jsDocId_of_str doc id hid]
    exact lookupA_setA_self _ _ _
  · rfl
  · exact jsonParse_stringify2 doc

theorem uploadDoc_then_downloadDoc_witness :
    rEmpty.reachable = true ∧
    getField doc0 ("_id".data) = some (.str ("d1".data)) ∧
    ∃ r2 : RemoteState,
      WebDAVSyncClient.uploadDoc (some cfg0) doc0 7 rEmpty = (.ok (), r2) ∧
      WebDAVSyncClient.downloadDoc (some cfg0) ("d1".data) r2 = (.ok (some doc0), r2) :=
  ⟨rfl, rfl, uploadDoc_then_downloadDoc cfg0 doc0 ("d1".data) 7 rEmpty rfl rfl⟩

theorem contains_cons_self_lc (x : List Char) (l : List (List Char)) :
    (x :: l).contains x = true := by
  simp

theorem ensureRemoteDirectory_ok (cfg : SyncConfig) (r : RemoteState)
    (hre : r.reachable = true) :
    ∃ r2, WebDAVSyncClient.ensureRemoteDirectory (some cfg) r = (.ok (), r2) ∧
      r2.reachable = true ∧ r2.files = r.files ∧
      davExists r2 ztoolsDir = .ok true ∧
      davExists r2 attachmentsDir = .ok true ∧
      (davExists r ztoolsDir = .ok true → davExists r attachmentsDir = .ok true →
        r2 = r) ∧
      WebDAVSyncClient.ensureRemoteDirectory (some cfg) r2 = (.ok (), r2) := by
  have hne : ¬(attachmentsDir = ztoolsDir) := by decide
  by_cases hz : (lookupA r.files ztoolsDir).isSome = true ∨ ztoolsDir ∈ r.dirs
  · by_cases ha : (lookupA r.files attachmentsDir).isSome = true ∨
        attachmentsDir ∈ r.dirs
    · refine ⟨r, ?_, hre, rfl, ?_, ?_, fun _ _ => rfl, ?_⟩ <;>
        simp [WebDAVSyncClient.ensureRemoteDirectory, davExists, hre, hz, ha]
    · refine ⟨⟨r.reachable, attachmentsDir :: r.dirs, r.files⟩, ?_, hre, rfl, ?_, ?_,
        ?_, ?_⟩
      · simp [WebDAVSyncClient.ensureRemoteDirectory, davExists, davCreateDirectory,
          hre, hz, ha]
      · simp only [davExists, hre, if_true]
        simp [List.mem_cons, hne]
        tauto
      · simp [davExists, hre]
      · intro _ hatt
        simp [davExists, hre] at hatt
        exact absurd hatt ha
      · have c1 : (lookupA r.files ztoolsDir).isSome = true ∨
            ztoolsDir = attachmentsDir ∨ ztoolsDir ∈ r.dirs := by
          rcases hz with h | h
          · exact Or.inl h
          · exact Or.inr (Or.inr h)
        simp [WebDAVSyncClient.ensureRemoteDirectory, davExists, hre, List.mem_cons,
          c1]
  · by_cases ha : (lookupA r.files attachmentsDir).isSome = true ∨
        attachmentsDir ∈ r.dirs
    · refine ⟨⟨r.reachable, ztoolsDir :: r.dirs, r.files⟩, ?_, hre, rfl, ?_, ?_, ?_, ?_⟩
      · simp [WebDAVSyncClient.ensureRemoteDirectory, davExists, davCreateDirectory,
          hre, hz, ha, List.mem_cons, hne]
      · simp [davExists, hre]
      · simp only [davExists, hre, if_true]
        simp [List.mem_cons, hne]
        tauto
      · intro hzz _
        simp [davExists, hre] at hzz
        exact absurd hzz hz
      · have c2 : (lookupA r.files attachmentsDir).isSome = true ∨
            attachmentsDir = ztoolsDir ∨ attachmentsDir ∈ r.dirs := by
          rcases ha with h | h
          · exact Or.inl h
          · exact Or.inr (Or.inr h)
        simp [WebDAVSyncClient.ensureRemoteDirectory, davExists, hre, List.mem_cons,
          c2]
    · refine ⟨⟨r.reachable, attachmentsDir :: ztoolsDir :: r.dirs, r.files⟩, ?_, hre,
        rfl, ?_, ?_, ?_, ?_⟩
      · simp [WebDAVSyncClient.ensureRemoteDirectory, davExists, davCreateDirectory,
          hre, hz, ha, List.mem_cons, hne]
      · simp [davExists, hre, List.mem_cons]
      · simp [davExists, hre, List.mem_cons]
      · intro hzz _
        simp [davExists, hre] at hzz
        exact absurd hzz hz
      · simp [WebDAVSyncClient.ensureRemoteDirectory, davExists, hre, List.mem_cons,
          hne]

/-- Claim C7: `init(config)` opens the transport, fails with a transport
error on any connection failure (leaving the remote untouched), and then
idempotently ensures the root sync directory and the `attachments/`
subdirectory exist: files are untouched, both directories exist
afterwards, a second `init` changes nothing, and when both directories
already existed the remote is left exactly as it was. -/
theorem init_connects_then_ensures_dirs (cfg : SyncConfig) (r : RemoteState) :
    (r.reachable = false →
      WebDAVSyncClient.init cfg r = (.error .transport, some cfg, r)) ∧
    (r.reachable = true →
      ∃ r2, WebDAVSyncClient.init cfg r = (.ok (), some cfg, r2) ∧
        r2.reachable = true ∧ r2.files = r.files ∧
        davExists r2 ztoolsDir = .ok true ∧
        davExists r2 attachmentsDir = .ok true ∧
        WebDAVSyncClient.init cfg r2 = (.ok (), some cfg, r2) ∧
        (davExists r ztoolsDir = .ok true → davExists r attachmentsDir = .ok true →
          r2 = r)) := by
  constructor
  · intro hun
    simp [WebDAVSyncClient.init, WebDAVSyncClient.testConnection,
      davGetDirectoryContents, hun]
  · intro hre
    obtain ⟨r2, hens, hr2re, hfiles, hz2, ha2, himp, hens2⟩ :=
      ensureRemoteDirectory_ok cfg r hre
    have htc : WebDAVSyncClient.testConnection (some cfg) r = (.ok true, r) := by
      simp [WebDAVSyncClient.testConnection, davGetDirectoryContents, hre]
    have htc2 : WebDAVSyncClient.testConnection (some cfg) r2 = (.ok true, r2) := by
      simp [WebDAVSyncClient.testConnection, davGetDirectoryContents, hr2re]
    refine ⟨r2, ?_, hr2re, hfiles, hz2, ha2, ?_, himp⟩
    · simp [WebDAVSyncClient.init, htc, hens]
    · simp [WebDAVSyncClient.init, htc2, hens2]

theorem init_connects_then_ensures_dirs_witness :
    (rBad.reachable = false ∧
      WebDAVSyncClient.init cfg0 rBad = (.error .transport, some cfg0, rBad)) ∧
    (rEmpty.reachable = true ∧
      ∃ r2, WebDAVSyncClient.init cfg0 rEmpty = (.ok (), some cfg0, r2) ∧
        r2.reachable = true ∧ r2.files = rEmpty.files ∧
        davExists r2 ztoolsDir = .ok true ∧
        davExists r2 attachmentsDir = .ok true ∧
        WebDAVSyncClient.init cfg0 r2 = (.ok (), some cfg0, r2) ∧
        (davExists rEmpty ztoolsDir = .ok true →
          davExists rEmpty attachmentsDir = .ok true → r2 = rEmpty)) :=
  ⟨⟨rfl, (init_connects_then_ensures_dirs cfg0 rBad).1 rfl⟩,
   ⟨rfl, (init_connects_then_ensures_dirs cfg0 rEmpty).2 rfl⟩⟩

/-- Claim C5: `generateNewRev(prev)` with leading integer `n` returns a
string matching `^<n+1>-[0-9a-f]{32}$`; with no argument it matches
`^1-[0-9a-f]{32}$`; an input with no numeric prefix such as `"not-a-rev"`
is treated as sequence 0, yielding sequence 1.  (Spec-modelled, see
`generateNewRev`.) -/
theorem generateNewRev_format (prev : List Char) (n seed : Nat)
    (h : leadingSeq (some prev) = n) :
    matchesRevFormat (n + 1) (generateNewRev (some prev) seed) ∧
    matchesRevFormat 1 (generateNewRev none seed) ∧
    leadingSeq (some ("not-a-rev".data)) = 0 ∧
    matchesRevFormat 1 (generateNewRev (some ("not-a-rev".data)) seed) := by
  refine ⟨⟨randomHex32 seed, ?_, randomHex32_length seed, randomHex32_hex seed⟩,
    ⟨randomHex32 seed, rfl, randomHex32_length seed, randomHex32_hex seed⟩,
    by decide,
    ⟨randomHex32 seed, ?_, randomHex32_length seed, randomHex32_hex seed⟩⟩
  · rw [generateNewRev, h]
  · rw [generateNewRev, show leadingSeq (some ("not-a-rev".data)) = 0 from by decide]

theorem generateNewRev_format_witness :
    leadingSeq (some ("5-deadbeefdeadbeefdeadbeefdeadbeef".data)) = 5 ∧
    (matchesRevFormat 6
        (generateNewRev (some ("5-deadbeefdeadbeefdeadbeefdeadbeef".data)) 0) ∧
      matchesRevFormat 1 (generateNewRev none 0) ∧
      leadingSeq (some ("not-a-rev".data)) = 0 ∧
      matchesRevFormat 1 (generateNewRev (some ("not-a-rev".data)) 0)) :=
  ⟨by decide,
    generateNewRev_format ("5-deadbeefdeadbeefdeadbeefdeadbeef".data) 5 0 (by decide)⟩

/-- Claim C1 (spec-modelled, see `syncCycle`): for a document id with a
pending Sync Queue entry whose local content differs from a remotely
changed version (newer than the recorded checkpoint), one sync cycle
applies no pull and pushes nothing for that id: the local document is
unchanged, the remote is unchanged, the queue entry is still pending, a
`ConflictRecord{docId, localDoc, remoteDoc, timestamp}` exists, and
`SyncResult.conflicts = 1` — neither version is discarded. -/
theorem syncCycle_conflict_preserved (id : List Char) (lc rc : JVal)
    (op : SyncOp) (qts qrc cp lm now : Nat) (cps : List (List Char × Nat))
    (hne : ¬(lc = rc)) (hcp : lookupA cps id = some cp) (hlt : cp < lm) :
    syncCycle now [⟨id, rc, lm⟩] ⟨[(id, lc)], [⟨id, op, qts, qrc⟩], cps, []⟩ =
      (⟨[(id, lc)], [⟨id, op, qts, qrc⟩], cps, [⟨id, lc, rc, now⟩]⟩,
        [⟨id, rc, lm⟩], ⟨0, 0, 1, 0⟩) := by
  have hnew : isNewer cps ⟨id, rc, lm⟩ = true := by
    unfold isNewer
    rw [hcp]
    simp [hlt]
  have hfq : findQueued [⟨id, op, qts, qrc⟩] id = some ⟨id, op, qts, qrc⟩ := by
    simp [findQueued, List.find?]
  have hl : lookupA [(id, lc)] id = some lc := by simp [lookupA]
  have hpull : pullPhase now [⟨id, rc, lm⟩]
      ⟨[(id, lc)], [⟨id, op, qts, qrc⟩], cps, []⟩ =
      (⟨[(id, lc)], [⟨id, op, qts, qrc⟩], cps, [⟨id, lc, rc, now⟩]⟩, [id], 0, 1) := by
    unfold pullPhase
    rw [hnew]
    simp only [hfq, hl, if_true]
    rw [if_neg hne]
    unfold pullPhase
    simp
  have hpush : pushPhase now [id] [⟨id, op, qts, qrc⟩] [(id, lc)] cps
      [⟨id, rc, lm⟩] = ([⟨id, op, qts, qrc⟩], cps, [⟨id, rc, lm⟩], 0, 0) := by
    unfold pushPhase
    simp only [List.contains_cons]
    simp only [show ((id == id) || [].contains id) = true from by simp]
    unfold pushPhase
    simp
  unfold syncCycle
  rw [hpull]
  simp only [hpush]

theorem syncCycle_conflict_preserved_witness :
    (¬(JVal.num 1 = JVal.num 2)) ∧
    lookupA [(("A".data), 4)] ("A".data) = some 4 ∧ 4 < 9 ∧
    syncCycle 11 [⟨"A".data, JVal.num 2, 9⟩]
        ⟨[("A".data, JVal.num 1)], [⟨"A".data, .put, 3, 0⟩], [("A".data, 4)], []⟩ =
      (⟨[("A".data, JVal.num 1)], [⟨"A".data, .put, 3, 0⟩], [("A".data, 4)],
          [⟨"A".data, JVal.num 1, JVal.num 2, 11⟩]⟩,
        [⟨"A".data, JVal.num 2, 9⟩], ⟨0, 0, 1, 0⟩) :=
  ⟨by decide, by decide, by decide,
    syncCycle_conflict_preserved ("A".data) (JVal.num 1) (JVal.num 2) .put 3 0 4 9 11
      [("A".data, 4)] (by decide) (by decide) (by decide)⟩

/-- Claim C4 (corrected), counterexample to the claim as stated:
`listRemoteDocsWithMeta` strips only the *first* occurrence of `".json"`
from the basename (JS `String.replace` with a string pattern), so the id
`"a.jsonb"` — stored at `/ztools-sync/a.jsonb.json` — is listed back as
the different id `"ab.json"`: the listing does not decode the filename
back to the original id. -/
theorem listRemote_strips_first_json_occurrence :
    (WebDAVSyncClient.listRemoteDocsWithMeta (some cfg0)
        (WebDAVSyncClient.uploadDoc (some cfg0)
          (JVal.obj [("_id".data, JVal.str ("a.jsonb".data))]) 5 rEmpty).2).1 =
      .ok [⟨"ab.json".data, 5⟩] ∧
    ("ab.json".data : List Char) ≠ "a.jsonb".data := by
  exact ⟨rfl, by decide⟩

theorem docPath_split (id : List Char) :
    docPath id = (ztoolsDir ++ ['/']) ++ (encodeURIComponent id ++ jsonExt) := by
  unfold docPath
  rw [show ("/ztools-sync/".data : List Char) = ztoolsDir ++ ['/'] from by decide]
  simp [List.append_assoc]

theorem slash_not_mem_encoded_json (id : List Char) :
    ('/' : Char) ∉ encodeURIComponent id ++ jsonExt := by
  intro hm
  rcases List.mem_append.mp hm with hm | hm
  · exact (encodeURIComponent_no_slash id '/' hm) rfl
  · exact absurd hm (by decide)

theorem childNameOf_docPath (id : List Char) :
    childNameOf ztoolsDir (docPath id) = some (encodeURIComponent id ++ jsonExt) := by
  unfold childNameOf
  rw [docPath_split, isPrefixOf_append_self]
  simp only [if_true]
  rw [show ztoolsDir.length + 1 = (ztoolsDir ++ ['/']).length from by simp,
    List.drop_left]
  have hne : (encodeURIComponent id ++ jsonExt).isEmpty = false := by
    cases h : encodeURIComponent id ++ jsonExt with
    | nil =>
      rcases List.append_eq_nil.mp h with ⟨_, h2⟩
      exact absurd h2 (by decide)
    | cons a b => rfl
  have h1 : ('/' : Char) ∉ encodeURIComponent id :=
    fun hm => (encodeURIComponent_no_slash id '/' hm) rfl
  have h2 : ('/' : Char) ∉ jsonExt := by decide
  simp [hne, h1, h2]

theorem endsWithStr_docPath (id : List Char) :
    endsWithStr (docPath id) jsonExt = true := by
  unfold endsWithStr docPath
  exact isSuffixOf_append_self _ _

/-- Claim C4 (amended): the remote path is derived by percent-encoding
the id, and distinct ids always map to distinct remote paths
(unconditionally).  `listRemoteDocsWithMeta` recovers the id by stripping
the *first* occurrence of `".json"` from the basename and
percent-decoding, so the id round-trips through upload → list → download
provided its percent-encoded form does not itself contain `".json"` as a
substring (JS `String.replace` removes only the first occurrence).
Path-separator and reserved characters themselves are percent-escaped
and never corrupt the path; the witness exercises the id `"a/b"`. -/
theorem docPath_injective_and_safe_roundtrip :
    (∀ a b : List Char, docPath a = docPath b → a = b) ∧
    (∀ (cfg : SyncConfig) (doc : JVal) (id : List Char) (now : Nat)
        (dirs : List (List Char)),
      getField doc ("_id".data) = some (.str id) →
      hasOcc jsonExt (encodeURIComponent id) = false →
      ∃ r1, WebDAVSyncClient.uploadDoc (some cfg) doc now ⟨true, dirs, []⟩ =
          (.ok (), r1) ∧
        (WebDAVSyncClient.listRemoteDocsWithMeta (some cfg) r1).1 =
          .ok [⟨id, now⟩] ∧
        WebDAVSyncClient.downloadDoc (some cfg) id r1 = (.ok (some doc), r1)) := by
  constructor
  · intro a b h
    rw [docPath_split, docPath_split] at h
    have h2 := List.append_cancel_left h
    have h3 := List.append_cancel_right h2
    exact encodeURIComponent_injective h3
  · intro cfg doc id now dirs hid hocc
    have hup := uploadDoc_ok cfg doc now ⟨true, dirs, []⟩ rfl
    rw [jsDocId_of_str doc id hid] at hup
    refine ⟨_, hup, ?_, ?_⟩
    · -- the listing of the one-file remote
      show (WebDAVSyncClient.listRemoteDocsWithMeta (some cfg)
        ⟨true, dirs, setA [] (docPath id) ⟨.text (stringify2 doc), now⟩⟩).1 = _
      unfold WebDAVSyncClient.listRemoteDocsWithMeta davGetDirectoryContents
      simp only [setA, eraseA, List.filter_nil, if_true]
      simp only [List.filterMap_cons, List.filterMap_nil,
        childNameOf_docPath, Option.map_some']
      -- the single file entry passes the filter, every dirs entry fails it
      rw [List.filter_append]
      rw [show List.filter (fun i => i.isFile && endsWithStr i.filename jsonExt)
          [(⟨docPath id, encodeURIComponent id ++ jsonExt, true, now⟩ : FileStat)] =
          [⟨docPath id, encodeURIComponent id ++ jsonExt, true, now⟩] from by
        simp [List.filter_cons, endsWithStr_docPath]]
      rw [show List.filter (fun i => i.isFile && endsWithStr i.filename jsonExt)
          (dirs.filterMap fun d => (childNameOf ztoolsDir d).map
            fun nm => (⟨d, nm, false, 0⟩ : FileStat)) = [] from by
        rw [List.filter_eq_nil_iff]
        intro a ha
        rcases List.mem_filterMap.mp ha with ⟨d, _, hd⟩
        rcases Option.map_eq_some'.mp hd with ⟨nm, _, hnm⟩
        rw [← hnm]
        simp]
      unfold WebDAVSyncClient.decodeDocEntries
      simp only [List.append_nil]
      rw [replaceFirst_jsonExt_append (encodeURIComponent id) hocc, decode_encode]
      rfl
    · apply downloadDoc_found cfg id _ ⟨.text (stringify2 doc), now⟩
        (stringify2 doc) doc rfl
      · exact lookupA_setA_self _ _ _
      · rfl
      · exact jsonParse_stringify2 doc

theorem docPath_injective_and_safe_roundtrip_witness :
    getField doc0 ("_id".data) = some (.str ("d1".data)) ∧
    hasOcc jsonExt (encodeURIComponent ("a/b".data)) = false ∧
    (∃ r1, WebDAVSyncClient.uploadDoc (some cfg0)
        (JVal.obj [("_id".data, JVal.str ("a/b".data))]) 5
        ⟨true, [ztoolsDir, attachmentsDir], []⟩ = (.ok (), r1) ∧
      (WebDAVSyncClient.listRemoteDocsWithMeta (some cfg0) r1).1 =
        .ok [⟨"a/b".data, 5⟩] ∧
      WebDAVSyncClient.downloadDoc (some cfg0) ("a/b".data) r1 =
        (.ok (some (JVal.obj [("_id".data, JVal.str ("a/b".data))])), r1)) :=
  ⟨rfl, by decide,
    docPath_injective_and_safe_roundtrip.2 cfg0
      (JVal.obj [("_id".data, JVal.str ("a/b".data))]) ("a/b".data) 5
      [ztoolsDir, attachmentsDir] rfl (by decide)⟩

end ZTools
